import Mathlib

/-!
# gh-dependabot: the list controller, its operation tracker and the duplicate filter

A shallow embedding of `src/tui_list.go` and `src/dupefilter.go`.

* Go's `map[string]int` (the tracker `inProgressOperations`) is a `Finmap`: an
  unordered finite map, so two trackers are equal exactly when they hold the
  same entries.  A count is a Go `int` of a 64-bit build: an `Int` between
  `MinInt` and `MaxInt`, on which `++` and `--` wrap around (`intInc`, `intDec`).
* Each method that locks `mapMutex` for its whole body is one atomic function.
* `tea.Msg`, `tea.Cmd` and the `bubbles/list` model are external to the
  repository; they are represented by the data the controller reads and
  writes, and the library's own `Update` is a parameter of the controller's.
* The regular expression of `dupefilter.go` is embedded as a leftmost-match
  search over the characters of the title.
* `packageMap` is an association list with distinct keys; the order in which
  `range` walks it is a parameter ranging over all permutations of its entries.
-/

namespace GhDependabot

/-! ## Data model -/

/-- The record `pullRequest`; its declaration is outside `src/`, the fields are
the ones the sources read (`updatedAt` as a timestamp). -/
structure pullRequest where
  repository : String
  number : String
  title : String
  url : String
  updatedAt : Int
deriving DecidableEq, Repr

/-- The merge-method selector passed to `commander.mergePullRequest`. -/
inductive MergeMethod where
  | MethodRebase
  | MethodMerge
  | MethodSquash
  | MethodDependabot
deriving DecidableEq, Repr

/-- A command produced by the `bubbles/list` model's own `Update`. -/
structure ListCmd where
  tag : Nat
deriving DecidableEq, Repr

/-- The asynchronous commands (`tea.Cmd`) that `ListView.Update` can batch. -/
inductive Cmd where
  | startSpinner
  | statusMessage (text : String)
  | mergePullRequest (pr : pullRequest) (method : MergeMethod)
  | rebasePullRequest (pr : pullRequest)
  | recreatePullRequest (pr : pullRequest)
  | openInBrowser (pr : pullRequest)
  | closePRCmd (pr : pullRequest)
  | viewPullRequestDetailsCmd (pr : pullRequest)
  | copyCheckoutCmd (pr : pullRequest)
  | fromList (c : ListCmd)
deriving DecidableEq, Repr

/-- Whether a command is a Commander merge. -/
def Cmd.isMerge : Cmd → Bool
  | .mergePullRequest _ _ => true
  | _ => false

/-- Whether a command performs an action on a pull request (Commander, close,
view or copy), as opposed to a command of the list widget. -/
def Cmd.isAction : Cmd → Bool
  | .startSpinner => false
  | .statusMessage _ => false
  | .fromList _ => false
  | _ => true

/-- The messages (`tea.Msg`) that `ListView.Update` distinguishes; a
`tea.KeyMsg` is represented by its `String()`. -/
inductive Msg where
  | errorMessage (err : String)
  | pullRequestMerged (pr : pullRequest)
  | pullRequestRebased (pr : pullRequest)
  | pullRequestRecreated (pr : pullRequest)
  | pullRequestOpenedInBrowser (pr : pullRequest)
  | WindowSizeMsg (Width Height : Int)
  | KeyMsg (keys : String)
  | other
deriving DecidableEq, Repr

/-- A `key.Binding`: the key strings it answers to (the sources never disable
a binding). -/
structure Binding where
  keys : List String
  help : String × String
deriving DecidableEq, Repr

/-- The function `key.Matches` for one binding. -/
def Matches (keys : String) (b : Binding) : Bool :=
  b.keys.contains keys

/-- The struct `keyMap`. -/
structure keyMap where
  mergeRebase : Binding
  mergeDefault : Binding
  mergeSquash : Binding
  mergeDependabot : Binding
  close : Binding
  rebase : Binding
  recreate : Binding
  view : Binding
  browse : Binding
  copyCheckout : Binding
deriving DecidableEq, Repr

/-- The constructor `newKeyMap`. -/
def newKeyMap : keyMap where
  close := ⟨["C"], ("C", "close pr")⟩
  mergeRebase := ⟨["enter"], ("enter", "merge (rebase)")⟩
  mergeDefault := ⟨["ctrl+m"], ("ctrl+m", "merge (merge-commit)")⟩
  mergeSquash := ⟨["M"], ("shift+m", "merge (squash)")⟩
  mergeDependabot := ⟨["alt+m"], ("alt+m", "merge (Dependabot)")⟩
  rebase := ⟨["r"], ("r", "rebase")⟩
  recreate := ⟨["R"], ("shift+r", "recreate")⟩
  browse := ⟨["o"], ("o", "open in browser")⟩
  view := ⟨["v"], ("v", "view details")⟩
  copyCheckout := ⟨["c"], ("c", "copy checkout command")⟩

/-! ## The list widget (`bubbles/list`), as far as the controller uses it -/

/-- The part of `list.Model` the controller reads and writes: the visible
items, the selected index, the spinner flag, the status message and the size. -/
structure ListModel where
  items : List pullRequest
  index : Nat
  showSpinner : Bool
  statusMessage : String
  width : Int
  height : Int
deriving DecidableEq, Repr

namespace ListModel

/-- The method `SelectedItem`: the item under the cursor, if there is one. -/
def SelectedItem (l : ListModel) : Option pullRequest := l.items.get? l.index

/-- The method `Index`. -/
def Index (l : ListModel) : Nat := l.index

/-- The method `RemoveItem`: drops the item at `index`, a no-op out of bounds.
The widget also re-paginates, which can move the cursor; that is not modelled:
`ListView.Update` does not read the cursor between this call and the widget's
own `Update`, which is free to set it. -/
def RemoveItem (l : ListModel) (index : Nat) : ListModel :=
  { l with items := l.items.eraseIdx index }

/-- The method `StartSpinner`. -/
def StartSpinner (l : ListModel) : ListModel × Cmd :=
  ({ l with showSpinner := true }, Cmd.startSpinner)

/-- The method `StopSpinner`. -/
def StopSpinner (l : ListModel) : ListModel :=
  { l with showSpinner := false }

/-- The method `NewStatusMessage`. -/
def NewStatusMessage (l : ListModel) (s : String) : ListModel × Cmd :=
  ({ l with statusMessage := s }, Cmd.statusMessage s)

/-- The method `SetSize`. -/
def SetSize (l : ListModel) (width height : Int) : ListModel :=
  { l with width := width, height := height }

end ListModel

/-- The widget's own reducer `list.Model.Update`, which `ListView.Update`
delegates to at its end; it is library code, hence a parameter. -/
abbrev ListUpdate := Msg → ListModel → ListModel × ListCmd

/-- A widget reducer that leaves the items alone (cursor, spinner, status and
size are free to change). -/
def ListUpdate.KeepsItems (lib : ListUpdate) : Prop :=
  ∀ msg l, (lib msg l).1.items = l.items

/-- The simplest widget reducer: nothing changes. -/
def ListUpdate.inert : ListUpdate := fun _ l => (l, ⟨0⟩)

/-- A widget reducer that moves the cursor to the top on every message. -/
def ListUpdate.toTop : ListUpdate := fun _ l => ({ l with index := 0 }, ⟨1⟩)

/-- The padding `listViewStyle.GetPadding()` of `Padding(1, 2)`:
top, right, bottom, left. -/
def listViewPadding : Int × Int × Int × Int := (1, 2, 1, 2)

/-! ## The operation tracker -/

/-- The map `inProgressOperations`. -/
abbrev Tracker := Finmap (fun _ : String => Int)

/-- The largest `int` of a 64-bit build, `math.MaxInt64` (2^63 - 1). -/
def MaxInt : Int := 9223372036854775807

/-- The smallest `int` of a 64-bit build, `math.MinInt64` (-2^63). -/
def MinInt : Int := -9223372036854775808

/-- Go's `x++` on an `int`: addition of 1 modulo 2^64 in two's complement, so
`MaxInt` wraps to `MinInt`. -/
def intInc (x : Int) : Int := if x = MaxInt then MinInt else x + 1

/-- Go's `x--` on an `int`: subtraction of 1 modulo 2^64 in two's complement, so
`MinInt` wraps to `MaxInt`. -/
def intDec (x : Int) : Int := if x = MinInt then MaxInt else x - 1

/-- The key `fmt.Sprintf("%s/%s", repository, number)`. -/
def repoString (repository number : String) : String :=
  repository ++ "/" ++ number

/-- The struct `ListView` (the commander is stateless, the mutex is implicit). -/
structure ListView where
  listModel : ListModel
  keyMap : keyMap
  inProgressOperations : Tracker

/-- The constructor `newListView`. -/
def newListView (pullRequests : List pullRequest) : ListView where
  listModel := ⟨pullRequests, 0, false, "", 0, 0⟩
  keyMap := newKeyMap
  inProgressOperations := ∅

namespace ListView

/-- The method `hasWorkInProgress`: `len(m.inProgressOperations) > 0`. -/
def hasWorkInProgress (m : ListView) : Bool :=
  decide (m.inProgressOperations.keys.card > 0)

/-- The method `markInProgress`. -/
def markInProgress (m : ListView) (repository number : String) : ListView :=
  let repoString := repoString repository number
  let ops := m.inProgressOperations
  let ops := if (ops.lookup repoString).isNone then ops.insert repoString 0 else ops
  let ops := ops.insert repoString (intInc ((ops.lookup repoString).getD 0))
  { m with inProgressOperations := ops }

/-- The method `markDone`. -/
def markDone (m : ListView) (repository number : String) : ListView :=
  let repoString := repoString repository number
  let ops := m.inProgressOperations
  if (ops.lookup repoString).isNone then m
  else
    let ops := ops.insert repoString (intDec ((ops.lookup repoString).getD 0))
    if (ops.lookup repoString).getD 0 ≤ 0 then
      { m with inProgressOperations := ops.erase repoString }
    else
      { m with inProgressOperations := ops }

/-- The body shared by the four merge key cases of `Update`. -/
def mergeCase (m : ListView) (method : MergeMethod) : ListView × List Cmd :=
  match m.listModel.SelectedItem with
  | some selectedItem =>
    let m := m.markInProgress selectedItem.repository selectedItem.number
    let l := m.listModel.RemoveItem m.listModel.Index
    let (l, spin) := l.StartSpinner
    ({ m with listModel := l }, [spin, Cmd.mergePullRequest selectedItem method])
  | none => (m, [])

/-- The `switch` of `Update`: everything before the final delegation to the
list widget. -/
def reduce (m : ListView) (msg : Msg) : ListView × List Cmd :=
  match msg with
  | .errorMessage err =>
    let l := m.listModel.StopSpinner
    let (l, c) := l.NewStatusMessage err
    ({ m with listModel := l }, [c])
  | .pullRequestMerged pr =>
    let m := { m with listModel := m.listModel.StopSpinner }
    let m := m.markDone pr.repository pr.number
    let (l, c) := m.listModel.NewStatusMessage ("Approved " ++ pr.url)
    ({ m with listModel := l }, [c])
  | .pullRequestRebased pr =>
    let m := { m with listModel := m.listModel.StopSpinner }
    let m := m.markDone pr.repository pr.number
    let (l, c) := m.listModel.NewStatusMessage ("Rebased " ++ pr.url)
    ({ m with listModel := l }, [c])
  | .pullRequestRecreated pr =>
    let m := { m with listModel := m.listModel.StopSpinner }
    let m := m.markDone pr.repository pr.number
    let (l, c) := m.listModel.NewStatusMessage ("Recreated " ++ pr.url)
    ({ m with listModel := l }, [c])
  | .pullRequestOpenedInBrowser pr =>
    let l := m.listModel.StopSpinner
    let (l, c) := l.NewStatusMessage ("Opened " ++ pr.url)
    ({ m with listModel := l }, [c])
  | .WindowSizeMsg Width Height =>
    let (topGap, rightGap, bottomGap, leftGap) := listViewPadding
    ({ m with listModel :=
        m.listModel.SetSize (Width - leftGap - rightGap) (Height - topGap - bottomGap) }, [])
  | .KeyMsg keys =>
    if Matches keys m.keyMap.mergeRebase then
      m.mergeCase MergeMethod.MethodRebase
    else if Matches keys m.keyMap.mergeDefault then
      m.mergeCase MergeMethod.MethodMerge
    else if Matches keys m.keyMap.mergeSquash then
      m.mergeCase MergeMethod.MethodSquash
    else if Matches keys m.keyMap.mergeDependabot then
      m.mergeCase MergeMethod.MethodDependabot
    else if Matches keys m.keyMap.rebase then
      match m.listModel.SelectedItem with
      | some selectedItem =>
        let m := m.markInProgress selectedItem.repository selectedItem.number
        let (l, spin) := m.listModel.StartSpinner
        ({ m with listModel := l }, [spin, Cmd.rebasePullRequest selectedItem])
      | none => (m, [])
    else if Matches keys m.keyMap.recreate then
      match m.listModel.SelectedItem with
      | some selectedItem =>
        let m := m.markInProgress selectedItem.repository selectedItem.number
        let (l, spin) := m.listModel.StartSpinner
        ({ m with listModel := l }, [spin, Cmd.recreatePullRequest selectedItem])
      | none => (m, [])
    else if Matches keys m.keyMap.browse then
      match m.listModel.SelectedItem with
      | some selectedItem => (m, [Cmd.openInBrowser selectedItem])
      | none => (m, [])
    else if Matches keys m.keyMap.close then
      match m.listModel.SelectedItem with
      | some selectedItem =>
        ({ m with listModel := m.listModel.RemoveItem m.listModel.Index },
          [Cmd.closePRCmd selectedItem])
      | none => (m, [])
    else if Matches keys m.keyMap.view then
      match m.listModel.SelectedItem with
      | some selectedItem => (m, [Cmd.viewPullRequestDetailsCmd selectedItem])
      | none => (m, [])
    else if Matches keys m.keyMap.copyCheckout then
      match m.listModel.SelectedItem with
      | some selectedItem => (m, [Cmd.copyCheckoutCmd selectedItem])
      | none => (m, [])
    else (m, [])
  | .other => (m, [])

/-- The method `Update`: the `switch`, then the list widget's own `Update` on
the same message; the result is the new view and the batch of commands. -/
def Update (lib : ListUpdate) (m : ListView) (msg : Msg) : ListView × List Cmd :=
  let (m, cmds) := m.reduce msg
  let (newListModel, cmd) := lib msg m.listModel
  ({ m with listModel := newListModel }, cmds ++ [Cmd.fromList cmd])

end ListView

/-! ## The duplicate filter -/

/-- The character class of the pattern: the ASCII letters `a-z` and `A-Z`, and
the three characters `@`, `/` and `-`. -/
def isNameChar (c : Char) : Bool :=
  decide (('a' ≤ c ∧ c ≤ 'z') ∨ ('A' ≤ c ∧ c ≤ 'Z') ∨ c = '@' ∨ c = '/' ∨ c = '-')

/-- A match of the pattern (`b` or `B`, then `ump`, a space, and the group: one
or more class characters) that starts at the head of the input: the matched text and capture group 1 (the longest run of class characters,
since `+` is greedy and nothing follows the group). -/
def matchHere : List Char → Option (List Char × List Char)
  | c0 :: c1 :: c2 :: c3 :: c4 :: rest =>
    if (c0 = 'b' ∨ c0 = 'B') ∧ c1 = 'u' ∧ c2 = 'm' ∧ c3 = 'p' ∧ c4 = ' ' then
      if (rest.takeWhile isNameChar).isEmpty then none
      else some (c0 :: c1 :: c2 :: c3 :: c4 :: rest.takeWhile isNameChar,
        rest.takeWhile isNameChar)
    else none
  | _ => none

/-- The leftmost match of the pattern in the input, as the slice that
`FindStringSubmatch` returns: empty without a match, else match and group 1. -/
def findSubmatch : List Char → List String
  | [] => []
  | c :: cs =>
    match matchHere (c :: cs) with
    | some (whole, name) => [String.mk whole, String.mk name]
    | none => findSubmatch cs

/-- The call `re.FindStringSubmatch(s)` for the pattern of `dupefilter.go`. -/
def FindStringSubmatch (s : String) : List String :=
  findSubmatch s.data

/-- The map `packageMap`: keys in some stored order, one entry per key. -/
abbrev PackageMap := AList (fun _ : String => List pullRequest)

/-- The body of the first loop of `filterDuplicatePullRequests` (the log line
of the `else` branch has no effect on the result and is left out). -/
def addToPackageMap (packageMap : PackageMap) (pr : pullRequest) : PackageMap :=
  let packageInfo := FindStringSubmatch pr.title
  if h : packageInfo.length > 1 then
    let packageName := packageInfo[1] ++ pr.repository
    packageMap.insert packageName ((packageMap.lookup packageName).getD [] ++ [pr])
  else packageMap

/-- The order in which `range` visits the entries of a map: Go leaves it
unspecified, so it is a parameter; every entry is visited exactly once. -/
structure RangeOrder where
  enum : List (Σ _ : String, List pullRequest) → List (Σ _ : String, List pullRequest)
  perm : ∀ l, (enum l).Perm l

/-- Visits the entries in stored order. -/
def RangeOrder.stored : RangeOrder := ⟨id, fun l => List.Perm.refl l⟩

/-- Visits the entries in reverse stored order. -/
def RangeOrder.reversed : RangeOrder := ⟨List.reverse, fun l => List.reverse_perm l⟩

/-- The function `filterDuplicatePullRequests`: the filtered slice and the
error value (always `nil`). -/
def filterDuplicatePullRequests (range : RangeOrder) (pullRequests : List pullRequest) :
    List pullRequest × Option String :=
  let packageMap := pullRequests.foldl addToPackageMap ∅
  let filteredPullRequests :=
    (range.enum packageMap.entries).foldl
      (fun filteredPullRequests prs =>
        if prs.2.length > 1 then filteredPullRequests ++ prs.2 else filteredPullRequests) []
  (filteredPullRequests, none)

/-- The package name a title parses to: capture group 1, if the pattern matches. -/
def packageName? (title : String) : Option String :=
  match FindStringSubmatch title with
  | _ :: name :: _ => some name
  | _ => none

/-- The grouping key `packageInfo[1] + pr.repository` of a unit, if its title parses. -/
def packageKey (pr : pullRequest) : Option String :=
  (packageName? pr.title).map (fun name => name ++ pr.repository)

/-- Whether a unit's grouping key occurs on at least two units of the input. -/
def isDuplicate (pullRequests : List pullRequest) (pr : pullRequest) : Bool :=
  match packageKey pr with
  | some k => decide (1 < (pullRequests.filter (fun p => packageKey p = some k)).length)
  | none => false

/-- A unit with the given repository, number and title. -/
def unit (repository number title : String) : pullRequest :=
  ⟨repository, number, title, "", 0⟩

/-- The example of the specification: two `lodash` units and one `axios`
unit in repository `A`. -/
def lodashExample : List pullRequest :=
  [unit "A" "1" "Bump lodash", unit "A" "2" "bump lodash", unit "A" "3" "Bump axios"]

/-- Two units that differ in package name and in repository, whose grouping keys
`packageInfo[1] + pr.repository` are both `foobarorg/r`. -/
def collidingUnits : List pullRequest :=
  [unit "barorg/r" "1" "Bump foo", unit "org/r" "2" "Bump foobar"]

/-- Two units of one repository whose package names differ in a digit only. -/
def digitUnits : List pullRequest :=
  [unit "A" "1" "Bump h2", unit "A" "2" "Bump h3"]

/-- Two units of one repository whose titles spell the leading word `Bump` and
`BUMP`. -/
def upperCaseUnits : List pullRequest :=
  [unit "A" "1" "Bump lodash", unit "A" "2" "BUMP lodash"]

/-! ## Tracker states and call sequences -/

/-- Every stored count is at least one. -/
def CountsPositive (t : Tracker) : Prop :=
  ∀ k c, t.lookup k = some c → 1 ≤ c

/-- A call of one of the two mutating tracker methods. -/
inductive TrackerCall where
  | markInProgress (repository number : String)
  | markDone (repository number : String)
deriving DecidableEq, Repr

/-- Performs one tracker call. -/
def TrackerCall.run (m : ListView) : TrackerCall → ListView
  | .markInProgress repository number => m.markInProgress repository number
  | .markDone repository number => m.markDone repository number

/-- Performs a sequence of tracker calls, first to last. -/
def runCalls (m : ListView) (calls : List TrackerCall) : ListView :=
  calls.foldl TrackerCall.run m

/-- The four merge keys of `newKeyMap`, each with the method its case passes
to `commander.mergePullRequest`. -/
def mergeKeys : List (String × MergeMethod) :=
  [("enter", MergeMethod.MethodRebase), ("ctrl+m", MergeMethod.MethodMerge),
   ("M", MergeMethod.MethodSquash), ("alt+m", MergeMethod.MethodDependabot)]

/-- A sample unit. -/
def samplePR : pullRequest :=
  ⟨"acme/app", "7", "Bump lodash from 4.17.20 to 4.17.21", "https://example.org/acme/app/pull/7", 100⟩

/-- Another sample unit. -/
def otherPR : pullRequest :=
  ⟨"acme/app", "8", "Bump axios from 1.0.0 to 1.1.0", "https://example.org/acme/app/pull/8", 200⟩

/-- A view in which one operation on `samplePR` is already in flight. -/
def busyView : ListView :=
  (newListView [samplePR, otherPR]).markInProgress "acme/app" "7"

/-! ## The start of the program (`main.go`) -/

/-- The method `Before` of `time.Time`, on timestamps. -/
def Before (t u : Int) : Bool := decide (t < u)

/-- The less function that `main` passes to `sort.Slice`:
`pullRequests[i].updatedAt.Before(pullRequests[j].updatedAt)`. -/
def updatedBefore (a b : pullRequest) : Bool := Before a.updatedAt b.updatedAt

/-- The call `sort.Slice(pullRequests, less)` with that less function. The
library sort is not stable, so the result is a parameter: a rearrangement of
the slice in which no unit is less than a unit before it. -/
structure SliceSort where
  sort : List pullRequest → List pullRequest
  perm : ∀ l, (sort l).Perm l
  sorted : ∀ l, (sort l).Pairwise (fun a b => updatedBefore b a = false)

/-- Insertion sort by `updatedAt`, one admissible behaviour of `sort.Slice`. -/
def SliceSort.insertion : SliceSort where
  sort := List.insertionSort (fun a b => a.updatedAt ≤ b.updatedAt)
  perm := fun l => List.perm_insertionSort _ l
  sorted := fun l =>
    (@List.sorted_insertionSort pullRequest (fun a b => a.updatedAt ≤ b.updatedAt) _
      ⟨fun a b => le_total a.updatedAt b.updatedAt⟩
      ⟨fun _ _ _ hab hbc => le_trans hab hbc⟩ l).imp
      (fun hab => decide_eq_false (not_lt.mpr hab))

/-- The end of `RunE` in `main`, from the `dupes` test to the list that is
handed to `newApp` (or the error that is returned); `pullRequests` is the
fetched slice, after the optional security filter. -/
def initialPullRequests (range : RangeOrder) (sorter : SliceSort) (dupes : Bool)
    (pullRequests : List pullRequest) : Except String (List pullRequest) :=
  if dupes then
    match filterDuplicatePullRequests range pullRequests with
    | (filtered, none) => Except.ok filtered
    | (_, some err) => Except.error err
  else
    Except.ok (sorter.sort pullRequests)

/-- Two duplicate units, the more recently updated one fetched first. -/
def staleSecond : List pullRequest :=
  [⟨"A", "1", "Bump foo", "", 200⟩, ⟨"A", "2", "Bump foo", "", 100⟩]

/-! ## Keys and sample states for the reducer claims -/

/-- The keys of `newKeyMap` whose cases call `RemoveItem`: the four merge keys
and the close key. -/
def removalKeys : List String := ["enter", "ctrl+m", "M", "alt+m", "C"]

/-- The rebase and recreate keys of `newKeyMap`, each with the command its case
emits for a unit. -/
def restartKeys : List (String × (pullRequest → Cmd)) :=
  [("r", Cmd.rebasePullRequest), ("R", Cmd.recreatePullRequest)]

/-- The success completions of a merge, a rebase and a recreate of a unit. -/
def successCompletions (pr : pullRequest) : List Msg :=
  [Msg.pullRequestMerged pr, Msg.pullRequestRebased pr, Msg.pullRequestRecreated pr]

/-- A widget reducer that leaves the spinner flag alone. -/
def ListUpdate.KeepsSpinner (lib : ListUpdate) : Prop :=
  ∀ msg l, (lib msg l).1.showSpinner = l.showSpinner

/-- The view after `enter` on `samplePR` and then `enter` on `otherPR`: both
merges are in flight, the list is empty and the spinner runs. -/
def twoMergesView : ListView :=
  (((newListView [samplePR, otherPR]).Update ListUpdate.inert (Msg.KeyMsg "enter")).1.Update
    ListUpdate.inert (Msg.KeyMsg "enter")).1

/-! ## Key presses and a tracker at the top of the `int` range -/

/-- The key types of `bubbletea` that the merge bindings involve. The library
declares `KeyEnter` and `KeyCtrlM` as the same constant (the carriage return),
so one constructor stands for both. -/
inductive KeyType where
  | KeyEnter
  | KeyRunes
deriving DecidableEq, Repr

/-- The constant `tea.KeyCtrlM`, equal to `tea.KeyEnter` in the library. -/
def KeyCtrlM : KeyType := KeyType.KeyEnter

/-- A key press as the library delivers it (`tea.KeyMsg`): the key type, the
runes typed for `KeyRunes`, and the alt flag. -/
structure Key where
  keyType : KeyType
  Runes : String
  Alt : Bool
deriving DecidableEq, Repr

/-- The method `String` of a key press, which `key.Matches` compares with the
keys of a binding. -/
def Key.String (k : Key) : String :=
  (if k.Alt then "alt+" else "") ++
    match k.keyType with
    | KeyType.KeyRunes => k.Runes
    | KeyType.KeyEnter => "enter"

/-- The message of a key press, as `Update` sees it. -/
def Msg.ofKey (k : Key) : Msg := Msg.KeyMsg k.String

/-- The key presses enter, `M` and alt+m, each with the merge method of the
case it reaches. -/
def pressedMergeKeys : List (Key × MergeMethod) :=
  [(⟨KeyType.KeyEnter, "", false⟩, MergeMethod.MethodRebase),
   (⟨KeyType.KeyRunes, "M", false⟩, MergeMethod.MethodSquash),
   (⟨KeyType.KeyRunes, "m", true⟩, MergeMethod.MethodDependabot)]

/-- A short call sequence: two starts and one completion for `acme/app/7`. -/
def sampleCalls : List TrackerCall :=
  [TrackerCall.markInProgress "acme/app" "7", TrackerCall.markInProgress "acme/app" "7",
   TrackerCall.markDone "acme/app" "7"]

/-- A view whose tracker holds `MaxInt` for the key of the selected `samplePR`. -/
def saturatedView : ListView :=
  { newListView [samplePR, otherPR] with
    inProgressOperations := (∅ : Tracker).insert "acme/app/7" MaxInt }

/-! ## Theorems: the operation tracker -/

/-- On the values of an `int`, `intInc` is addition of 1 modulo 2^64. -/
theorem intInc_eq_mod (x : Int) (hlo : MinInt ≤ x) (hhi : x ≤ MaxInt) :
    intInc x = (x + 1 + 9223372036854775808) % 18446744073709551616 - 9223372036854775808 := by
  unfold intInc
  unfold MinInt at hlo
  unfold MaxInt at hhi
  simp only [MaxInt, MinInt]
  split_ifs with h <;> omega

/-- On the values of an `int`, `intDec` is subtraction of 1 modulo 2^64. -/
theorem intDec_eq_mod (x : Int) (hlo : MinInt ≤ x) (hhi : x ≤ MaxInt) :
    intDec x = (x - 1 + 9223372036854775808) % 18446744073709551616 - 9223372036854775808 := by
  unfold intDec
  unfold MinInt at hlo
  unfold MaxInt at hhi
  simp only [MaxInt, MinInt]
  split_ifs with h <;> omega

theorem intInc_of_lt (x : Int) (h : x < MaxInt) : intInc x = x + 1 := by
  unfold intInc
  rw [if_neg (ne_of_lt h)]

theorem intDec_of_pos (x : Int) (h : 1 ≤ x) : intDec x = x - 1 := by
  unfold intDec
  have hne : x ≠ MinInt := by
    unfold MinInt
    omega
  rw [if_neg hne]

theorem intDec_intInc (x : Int) (h : 0 ≤ x) : intDec (intInc x) = x := by
  unfold intInc intDec
  by_cases hx : x = MaxInt
  · rw [if_pos hx, if_pos rfl, hx]
  · rw [if_neg hx]
    have hne : x + 1 ≠ MinInt := by
      unfold MinInt
      omega
    rw [if_neg hne]
    omega

theorem lookup_markInProgress (m : ListView) (repository number k : String) :
    (m.markInProgress repository number).inProgressOperations.lookup k =
      if k = repoString repository number then
        some (intInc ((m.inProgressOperations.lookup k).getD 0))
      else m.inProgressOperations.lookup k := by
  unfold ListView.markInProgress
  by_cases hk : k = repoString repository number
  · subst hk
    cases h : Finmap.lookup (repoString repository number) m.inProgressOperations <;>
      simp [h, Finmap.lookup_insert]
  · cases h : Finmap.lookup (repoString repository number) m.inProgressOperations <;>
      simp [h, hk, Finmap.lookup_insert_of_ne]

theorem lookup_markDone (m : ListView) (repository number k : String) :
    (m.markDone repository number).inProgressOperations.lookup k =
      if k = repoString repository number then
        match m.inProgressOperations.lookup k with
        | none => none
        | some c => if intDec c ≤ 0 then none else some (intDec c)
      else m.inProgressOperations.lookup k := by
  unfold ListView.markDone
  by_cases hk : k = repoString repository number
  · subst hk
    cases h : Finmap.lookup (repoString repository number) m.inProgressOperations with
    | none => simp [h]
    | some c =>
      by_cases hc : intDec c ≤ 0 <;>
        simp [h, hc, Finmap.lookup_insert, Finmap.lookup_erase]
  · cases h : Finmap.lookup (repoString repository number) m.inProgressOperations with
    | none => simp [h, hk]
    | some c =>
      by_cases hc : intDec c ≤ 0 <;>
        simp [h, hk, hc, Finmap.lookup_insert, Finmap.lookup_insert_of_ne,
          Finmap.lookup_erase_ne]

/-- Below `MaxInt` a start raises the count of its key by one (from 0 when the
key is absent). -/
theorem lookup_markInProgress_of_room (m : ListView) (repository number : String)
    (hroom : (m.inProgressOperations.lookup (repoString repository number)).getD 0 < MaxInt) :
    (m.markInProgress repository number).inProgressOperations.lookup
        (repoString repository number) =
      some ((m.inProgressOperations.lookup (repoString repository number)).getD 0 + 1) := by
  rw [lookup_markInProgress, if_pos rfl, intInc_of_lt _ hroom]

theorem markInProgress_listModel (m : ListView) (repository number : String) :
    (m.markInProgress repository number).listModel = m.listModel := rfl

theorem markInProgress_keyMap (m : ListView) (repository number : String) :
    (m.markInProgress repository number).keyMap = m.keyMap := rfl

theorem markDone_listModel (m : ListView) (repository number : String) :
    (m.markDone repository number).listModel = m.listModel := by
  simp only [ListView.markDone]
  split_ifs <;> rfl

theorem markDone_keyMap (m : ListView) (repository number : String) :
    (m.markDone repository number).keyMap = m.keyMap := by
  simp only [ListView.markDone]
  split_ifs <;> rfl

/-- Two views with the same widget state, key map and tracker entries are equal. -/
theorem ListView.ext_lookup {m₁ m₂ : ListView} (hl : m₁.listModel = m₂.listModel)
    (hk : m₁.keyMap = m₂.keyMap)
    (ht : ∀ k, m₁.inProgressOperations.lookup k = m₂.inProgressOperations.lookup k) :
    m₁ = m₂ := by
  cases m₁; cases m₂
  simp only [ListView.mk.injEq]
  exact ⟨hl, hk, Finmap.ext_lookup ht⟩

/-- A start keeps all counts positive as long as the count of its key is below
`MaxInt`. -/
theorem countsPositive_markInProgress (m : ListView) (repository number : String)
    (h : CountsPositive m.inProgressOperations)
    (hroom : (m.inProgressOperations.lookup (repoString repository number)).getD 0 < MaxInt) :
    CountsPositive (m.markInProgress repository number).inProgressOperations := by
  intro k c hc
  rw [lookup_markInProgress] at hc
  split_ifs at hc with hk
  · subst hk
    rw [intInc_of_lt _ hroom] at hc
    cases hl : Finmap.lookup (repoString repository number) m.inProgressOperations with
    | none => simp [hl] at hc; omega
    | some c' =>
      have := h _ c' hl
      simp [hl] at hc; omega
  · exact h k c hc

theorem countsPositive_markDone (m : ListView) (repository number : String)
    (h : CountsPositive m.inProgressOperations) :
    CountsPositive (m.markDone repository number).inProgressOperations := by
  intro k c hc
  rw [lookup_markDone] at hc
  split_ifs at hc with hk
  · cases hl : Finmap.lookup k m.inProgressOperations with
    | none => simp [hl] at hc
    | some c' =>
      have hc' := h k c' hl
      simp only [hl, intDec_of_pos c' hc'] at hc
      split_ifs at hc with h0
      simp at hc; omega
  · exact h k c hc

theorem countsPositive_empty : CountsPositive (∅ : Tracker) := by
  intro k c hc
  simp [Finmap.lookup_empty] at hc

theorem countsPositive_busyView : CountsPositive busyView.inProgressOperations :=
  countsPositive_markInProgress _ _ _ countsPositive_empty (by decide)

theorem hasWorkInProgress_eq_false_iff (m : ListView) :
    m.hasWorkInProgress = false ↔ m.inProgressOperations = ∅ := by
  unfold ListView.hasWorkInProgress
  simp only [gt_iff_lt, decide_eq_false_iff_not, not_lt, Nat.le_zero,
    Finset.card_eq_zero]
  constructor
  · intro h
    apply Finmap.ext_lookup
    intro k
    rw [Finmap.lookup_empty, Finmap.lookup_eq_none, ← Finmap.mem_keys, h]
    exact Finset.not_mem_empty k
  · intro h
    rw [h, Finmap.keys_empty]

/-- Undoing a start: on a tracker with positive counts, `markDone` after
`markInProgress` on the same key restores the view (at `MaxInt` the two
wrap-arounds cancel). -/
theorem markDone_markInProgress (m : ListView) (repository number : String)
    (h : CountsPositive m.inProgressOperations) :
    (m.markInProgress repository number).markDone repository number = m := by
  apply ListView.ext_lookup
  · rw [markDone_listModel, markInProgress_listModel]
  · rw [markDone_keyMap, markInProgress_keyMap]
  · intro k
    rw [lookup_markDone, lookup_markInProgress]
    split_ifs with hk
    · cases hl : Finmap.lookup k m.inProgressOperations with
      | none =>
        have h0 : intDec (intInc 0) = 0 := intDec_intInc 0 (le_refl 0)
        simp [h0]
      | some c =>
        have hc := h k c hl
        have hcc : intDec (intInc c) = c := intDec_intInc c (by omega)
        have hpos : ¬ (c ≤ 0) := by omega
        simp only [Option.getD_some, hcc, hpos, if_false]
    · rfl

theorem countsPositive_iterate_markDone (repository number : String) (j : Nat)
    (m : ListView) (h : CountsPositive m.inProgressOperations) :
    CountsPositive
      ((fun v : ListView => v.markDone repository number)^[j] m).inProgressOperations := by
  induction j with
  | zero => exact h
  | succ j ih =>
    rw [Function.iterate_succ_apply']
    exact countsPositive_markDone _ _ _ ih

/-- After `i` starts of a key whose count leaves room for them, all counts are
positive and the count of the key has grown by `i`. -/
theorem iterate_markInProgress_of_room (repository number : String) (i : Nat)
    (m : ListView) (h : CountsPositive m.inProgressOperations)
    (hroom : (m.inProgressOperations.lookup (repoString repository number)).getD 0 + i ≤
      MaxInt) :
    CountsPositive
        ((fun v : ListView => v.markInProgress repository number)^[i] m).inProgressOperations ∧
      (((fun v : ListView => v.markInProgress repository number)^[i]
        m).inProgressOperations.lookup (repoString repository number)).getD 0 =
        (m.inProgressOperations.lookup (repoString repository number)).getD 0 + i := by
  induction i with
  | zero => exact ⟨h, by simp⟩
  | succ i ih =>
    have hroom' : (m.inProgressOperations.lookup (repoString repository number)).getD 0 + i ≤
        MaxInt := by
      push_cast at hroom
      omega
    obtain ⟨hpos, hcount⟩ := ih hroom'
    have hlt : (((fun v : ListView => v.markInProgress repository number)^[i]
        m).inProgressOperations.lookup (repoString repository number)).getD 0 < MaxInt := by
      rw [hcount]
      push_cast at hroom
      omega
    rw [Function.iterate_succ_apply']
    refine ⟨countsPositive_markInProgress _ _ _ hpos hlt, ?_⟩
    rw [lookup_markInProgress_of_room _ _ _ hlt, Option.getD_some, hcount]
    push_cast
    omega

theorem iterate_markDone_markInProgress (repository number : String) (N : Nat)
    (m : ListView) (h : CountsPositive m.inProgressOperations)
    (hroom : (m.inProgressOperations.lookup (repoString repository number)).getD 0 + N ≤
      MaxInt) :
    (fun v : ListView => v.markDone repository number)^[N]
      ((fun v : ListView => v.markInProgress repository number)^[N] m) = m := by
  induction N with
  | zero => rfl
  | succ N ih =>
    have hroom' : (m.inProgressOperations.lookup (repoString repository number)).getD 0 + N ≤
        MaxInt := by
      push_cast at hroom
      omega
    rw [Function.iterate_succ_apply, Function.iterate_succ_apply']
    have hinner := markDone_markInProgress
      ((fun v : ListView => v.markInProgress repository number)^[N] m) repository number
      (iterate_markInProgress_of_room repository number N m h hroom').1
    simp only [] at hinner ⊢
    rw [hinner]
    exact ih hroom'

/-- All counts lie between 1 and `n`. -/
theorem countsBounded_step (m : ListView) (call : TrackerCall) (n : Int)
    (hn : 0 ≤ n) (hmax : n < MaxInt)
    (h : ∀ k c, m.inProgressOperations.lookup k = some c → 1 ≤ c ∧ c ≤ n) :
    ∀ k c, (call.run m).inProgressOperations.lookup k = some c → 1 ≤ c ∧ c ≤ n + 1 := by
  intro k c hc
  cases call with
  | markInProgress r nr =>
    simp only [TrackerCall.run] at hc
    rw [lookup_markInProgress] at hc
    split_ifs at hc with hk
    · cases hl : Finmap.lookup k m.inProgressOperations with
      | none =>
        rw [hl, Option.getD_none, intInc_of_lt 0 (by omega)] at hc
        simp at hc
        omega
      | some c' =>
        obtain ⟨h1, h2⟩ := h k c' hl
        rw [hl, Option.getD_some, intInc_of_lt c' (by omega)] at hc
        simp at hc
        omega
    · obtain ⟨h1, h2⟩ := h k c hc
      exact ⟨h1, by omega⟩
  | markDone r nr =>
    simp only [TrackerCall.run] at hc
    rw [lookup_markDone] at hc
    split_ifs at hc with hk
    · cases hl : Finmap.lookup k m.inProgressOperations with
      | none => simp [hl] at hc
      | some c' =>
        obtain ⟨h1, h2⟩ := h k c' hl
        simp only [hl, intDec_of_pos c' h1] at hc
        split_ifs at hc with h0
        simp at hc
        omega
    · obtain ⟨h1, h2⟩ := h k c hc
      exact ⟨h1, by omega⟩

theorem countsBounded_runCalls (calls : List TrackerCall) (m : ListView) (n : Int)
    (hn : 0 ≤ n) (hmax : n + calls.length ≤ MaxInt)
    (h : ∀ k c, m.inProgressOperations.lookup k = some c → 1 ≤ c ∧ c ≤ n) :
    ∀ k c, (runCalls m calls).inProgressOperations.lookup k = some c →
      1 ≤ c ∧ c ≤ n + calls.length := by
  induction calls generalizing m n with
  | nil =>
    intro k c hc
    obtain ⟨h1, h2⟩ := h k c hc
    exact ⟨h1, by simpa using h2⟩
  | cons call rest ih =>
    simp only [List.length_cons, Nat.cast_add, Nat.cast_one] at hmax
    have hstep := countsBounded_step m call n hn (by omega) h
    have hrest := ih (call.run m) (n + 1) (by omega) (by omega) hstep
    intro k c hc
    have := hrest k c (by simpa [runCalls] using hc)
    simp only [List.length_cons, Nat.cast_add, Nat.cast_one]
    omega

theorem countsPositive_saturatedView : CountsPositive saturatedView.inProgressOperations := by
  intro k c hc
  by_cases hk : k = "acme/app/7"
  · subst hk
    have hl : saturatedView.inProgressOperations.lookup "acme/app/7" = some MaxInt :=
      Finmap.lookup_insert _
    rw [hl] at hc
    cases hc
    decide
  · have hl : saturatedView.inProgressOperations.lookup k = none := by
      show Finmap.lookup k ((∅ : Tracker).insert "acme/app/7" MaxInt) = none
      rw [Finmap.lookup_insert_of_ne _ hk, Finmap.lookup_empty]
    rw [hl] at hc
    cases hc

theorem runCalls_replicate_markInProgress (repository number : String) (i : Nat)
    (m : ListView) :
    runCalls m (List.replicate i (TrackerCall.markInProgress repository number)) =
      (fun v : ListView => v.markInProgress repository number)^[i] m := by
  induction i generalizing m with
  | zero => rfl
  | succ i ih =>
    rw [List.replicate_succ, Function.iterate_succ_apply]
    simp only [runCalls, List.foldl_cons, TrackerCall.run]
    exact ih _

/-- One start more than `MaxInt` of them, from an absent key, leaves the count
`MinInt`. -/
theorem lookup_after_too_many_starts (repository number : String) (m : ListView)
    (hpos : CountsPositive m.inProgressOperations)
    (hfresh : m.inProgressOperations.lookup (repoString repository number) = none) :
    (runCalls m (List.replicate (MaxInt.toNat + 1)
      (TrackerCall.markInProgress repository number))).inProgressOperations.lookup
        (repoString repository number) = some MinInt := by
  have hcast : ((MaxInt.toNat : Nat) : Int) = MaxInt := by decide
  have hroom : (m.inProgressOperations.lookup (repoString repository number)).getD 0 +
      ((MaxInt.toNat : Nat) : Int) ≤ MaxInt := by
    rw [hfresh, hcast]
    decide
  obtain ⟨_, hcount⟩ := iterate_markInProgress_of_room repository number MaxInt.toNat m
    hpos hroom
  rw [runCalls_replicate_markInProgress, Function.iterate_succ_apply', lookup_markInProgress,
    if_pos rfl, hcount, hfresh, hcast]
  rfl

/-! ## Theorems: the reducer -/

theorem reduce_mergeKey (m : ListView) (u : pullRequest) (key : String)
    (method : MergeMethod) (hkm : m.keyMap = newKeyMap)
    (hsel : m.listModel.SelectedItem = some u) (hkey : (key, method) ∈ mergeKeys) :
    m.reduce (Msg.KeyMsg key) =
      ({ m.markInProgress u.repository u.number with
          listModel :=
            { m.listModel with
                items := m.listModel.items.eraseIdx m.listModel.index
                showSpinner := true } },
        [Cmd.startSpinner, Cmd.mergePullRequest u method]) := by
  simp only [mergeKeys, List.mem_cons, Prod.mk.injEq, List.mem_singleton, List.not_mem_nil,
    or_false] at hkey
  rcases hkey with ⟨rfl, rfl⟩ | ⟨rfl, rfl⟩ | ⟨rfl, rfl⟩ | ⟨rfl, rfl⟩ <;>
    simp [ListView.reduce, hkm, newKeyMap, Matches, ListView.mergeCase, hsel,
      markInProgress_listModel, ListModel.RemoveItem, ListModel.StartSpinner,
      ListModel.Index]

theorem reduce_errorMessage_tracker (m : ListView) (err : String) :
    (m.reduce (Msg.errorMessage err)).1.inProgressOperations = m.inProgressOperations := rfl

theorem reduce_errorMessage_items (m : ListView) (err : String) :
    (m.reduce (Msg.errorMessage err)).1.listModel.items = m.listModel.items := rfl

theorem Update_tracker (lib : ListUpdate) (m : ListView) (msg : Msg) :
    (m.Update lib msg).1.inProgressOperations = (m.reduce msg).1.inProgressOperations := rfl

theorem Update_items (lib : ListUpdate) (hlib : lib.KeepsItems) (m : ListView) (msg : Msg) :
    (m.Update lib msg).1.listModel.items = (m.reduce msg).1.listModel.items := by
  simp only [ListView.Update]
  exact hlib msg _

theorem Update_cmds (lib : ListUpdate) (m : ListView) (msg : Msg) :
    (m.Update lib msg).2 =
      (m.reduce msg).2 ++ [Cmd.fromList (lib msg (m.reduce msg).1.listModel).2] := rfl

theorem keepsItems_inert : ListUpdate.inert.KeepsItems := fun _ _ => rfl

theorem keepsItems_toTop : ListUpdate.toTop.KeepsItems := fun _ _ => rfl

theorem selected_split (l : ListModel) (u : pullRequest) (h : l.SelectedItem = some u) :
    l.items = l.items.take l.index ++ u :: l.items.drop (l.index + 1) ∧
      l.items.eraseIdx l.index = l.items.take l.index ++ l.items.drop (l.index + 1) := by
  unfold ListModel.SelectedItem at h
  rw [List.get?_eq_some] at h
  obtain ⟨hlt, hu⟩ := h
  refine ⟨?_, List.eraseIdx_eq_take_drop_succ _ _⟩
  have hd : l.items.drop l.index = u :: l.items.drop (l.index + 1) := by
    rw [← hu]
    exact List.drop_eq_getElem_cons hlt
  conv_lhs => rw [← List.take_append_drop l.index l.items, hd]

theorem pressed_mem_mergeKeys (key : Key) (method : MergeMethod)
    (h : (key, method) ∈ pressedMergeKeys) : (key.String, method) ∈ mergeKeys := by
  simp only [pressedMergeKeys, List.mem_cons, Prod.mk.injEq, List.mem_singleton,
    List.not_mem_nil, or_false] at h
  rcases h with ⟨rfl, rfl⟩ | ⟨rfl, rfl⟩ | ⟨rfl, rfl⟩ <;> decide

/-! ## Claims about the controller and the tracker -/

/-- C1 (the code departs from the claim): let `u` be the selected unit of a view
whose tracker has no entry for `u`; after one of the four merge keys has been
reduced by `Update` and the failure completion `errorMessage` has been reduced
after it, the tracker still maps the key of `u` to 1 and `hasWorkInProgress`
is still true: the `errorMessage` case never calls `markDone`. -/
theorem errorMessage_keeps_tracker_entry (lib : ListUpdate) (m : ListView) (u : pullRequest)
    (key : String) (method : MergeMethod) (err : String)
    (hkm : m.keyMap = newKeyMap) (hsel : m.listModel.SelectedItem = some u)
    (hkey : (key, method) ∈ mergeKeys)
    (hfresh : m.inProgressOperations.lookup (repoString u.repository u.number) = none) :
    (((m.Update lib (Msg.KeyMsg key)).1.Update lib
        (Msg.errorMessage err)).1.inProgressOperations.lookup
          (repoString u.repository u.number) = some 1) ∧
      ((m.Update lib (Msg.KeyMsg key)).1.Update lib
        (Msg.errorMessage err)).1.hasWorkInProgress = true := by
  have hl : ((m.Update lib (Msg.KeyMsg key)).1.Update lib
        (Msg.errorMessage err)).1.inProgressOperations.lookup
          (repoString u.repository u.number) = some 1 := by
    rw [Update_tracker, reduce_errorMessage_tracker, Update_tracker,
      reduce_mergeKey m u key method hkm hsel hkey]
    simp only []
    rw [lookup_markInProgress, if_pos rfl, hfresh]
    rfl
  refine ⟨hl, ?_⟩
  cases hw : ((m.Update lib (Msg.KeyMsg key)).1.Update lib
        (Msg.errorMessage err)).1.hasWorkInProgress with
  | true => rfl
  | false =>
    rw [hasWorkInProgress_eq_false_iff] at hw
    rw [hw, Finmap.lookup_empty] at hl
    cases hl

/-- Witness of C1: the view `newListView [samplePR, otherPR]`, key `enter`. -/
theorem errorMessage_keeps_tracker_entry_witness :
    (((newListView [samplePR, otherPR]).Update ListUpdate.inert (Msg.KeyMsg "enter")).1.Update
        ListUpdate.inert (Msg.errorMessage "merge failed")).1.inProgressOperations.lookup
          (repoString samplePR.repository samplePR.number) = some 1 ∧
      (((newListView [samplePR, otherPR]).Update ListUpdate.inert (Msg.KeyMsg "enter")).1.Update
        ListUpdate.inert (Msg.errorMessage "merge failed")).1.hasWorkInProgress = true :=
  errorMessage_keeps_tracker_entry ListUpdate.inert (newListView [samplePR, otherPR]) samplePR
    "enter" MergeMethod.MethodRebase "merge failed" rfl rfl (by decide) (by decide)

/-- C2, as stated, fails twice. In `saturatedView` the key of the selected unit
has count `MaxInt`; after the merge key `enter` its count is `MinInt`, not one
more. And the Ctrl+M key press is delivered with the string `enter`, so on a
new view it reaches the rebase case and emits `mergePullRequest` with
`MethodRebase`, not with the merge-commit method. -/
theorem mergeKey_claim_fails :
    saturatedView.listModel.SelectedItem = some samplePR ∧
      saturatedView.inProgressOperations.lookup "acme/app/7" = some MaxInt ∧
      (saturatedView.Update ListUpdate.inert (Msg.KeyMsg "enter")).1.inProgressOperations.lookup
        "acme/app/7" = some MinInt ∧
      MinInt ≠ MaxInt + 1 ∧
      Key.String ⟨KeyCtrlM, "", false⟩ = "enter" ∧
      ((newListView [samplePR, otherPR]).Update ListUpdate.inert
        (Msg.ofKey ⟨KeyCtrlM, "", false⟩)).2.filter Cmd.isMerge =
        [Cmd.mergePullRequest samplePR MergeMethod.MethodRebase] := by
  refine ⟨by decide, by decide, by decide, by decide, by decide, by decide⟩

/-- C2, amended: with a selected unit `u` whose key has a count below `MaxInt`
(0 when absent), each of the key presses enter (rebase), `M` (squash) and alt+m
(Dependabot) makes `Update` remove exactly the selected item from the visible
list (the items before and after it keep their order), raise the tracker count
of `u.repository/u.number` by one and leave every other key alone, and batch
the spinner command, one `mergePullRequest u method` with the method of the
key, and the widget's own command, so that this merge is the only merge command
and the only action command. -/
theorem mergeKey_step (lib : ListUpdate) (m : ListView) (u : pullRequest)
    (key : Key) (method : MergeMethod)
    (hlib : lib.KeepsItems) (hkm : m.keyMap = newKeyMap)
    (hsel : m.listModel.SelectedItem = some u) (hkey : (key, method) ∈ pressedMergeKeys)
    (hroom : (m.inProgressOperations.lookup (u.repository ++ "/" ++ u.number)).getD 0 <
      MaxInt) :
    (m.listModel.items =
        m.listModel.items.take m.listModel.index ++
          u :: m.listModel.items.drop (m.listModel.index + 1)) ∧
      ((m.Update lib (Msg.ofKey key)).1.listModel.items =
        m.listModel.items.take m.listModel.index ++
          m.listModel.items.drop (m.listModel.index + 1)) ∧
      ((m.Update lib (Msg.ofKey key)).1.listModel.items.length + 1 =
        m.listModel.items.length) ∧
      ((m.Update lib (Msg.ofKey key)).1.inProgressOperations.lookup
          (u.repository ++ "/" ++ u.number) =
        some ((m.inProgressOperations.lookup (u.repository ++ "/" ++ u.number)).getD 0 + 1)) ∧
      (∀ k, k ≠ u.repository ++ "/" ++ u.number →
        (m.Update lib (Msg.ofKey key)).1.inProgressOperations.lookup k =
          m.inProgressOperations.lookup k) ∧
      (∃ c, (m.Update lib (Msg.ofKey key)).2 =
        [Cmd.startSpinner, Cmd.mergePullRequest u method, Cmd.fromList c]) ∧
      ((m.Update lib (Msg.ofKey key)).2.filter Cmd.isMerge =
        [Cmd.mergePullRequest u method]) ∧
      ((m.Update lib (Msg.ofKey key)).2.filter Cmd.isAction =
        [Cmd.mergePullRequest u method]) := by
  have hkeys : (key.String, method) ∈ mergeKeys := pressed_mem_mergeKeys key method hkey
  have hred := reduce_mergeKey m u key.String method hkm hsel hkeys
  obtain ⟨hsplit, herase⟩ := selected_split m.listModel u hsel
  have hitems : (m.Update lib (Msg.ofKey key)).1.listModel.items =
      m.listModel.items.take m.listModel.index ++
        m.listModel.items.drop (m.listModel.index + 1) := by
    rw [Msg.ofKey, Update_items lib hlib, hred]
    exact herase
  refine ⟨hsplit, hitems, ?_, ?_, ?_, ?_, ?_, ?_⟩
  · rw [hitems]
    conv_rhs => rw [hsplit]
    simp only [List.length_append, List.length_cons]
    omega
  · rw [Msg.ofKey, Update_tracker, hred]
    exact lookup_markInProgress_of_room m u.repository u.number hroom
  · intro k hk
    rw [Msg.ofKey, Update_tracker, hred]
    simp only []
    rw [lookup_markInProgress]
    exact if_neg hk
  · refine ⟨(lib (Msg.KeyMsg key.String) (m.reduce (Msg.KeyMsg key.String)).1.listModel).2, ?_⟩
    rw [Msg.ofKey, Update_cmds, hred]
    rfl
  · rw [Msg.ofKey, Update_cmds, hred]
    rfl
  · rw [Msg.ofKey, Update_cmds, hred]
    rfl

/-- Witness of C2 amended: the squash key `M` on `busyView`, where the key of
the selected unit already has count 1, with a widget that moves the cursor. -/
theorem mergeKey_step_witness :
    (busyView.Update ListUpdate.toTop (Msg.ofKey ⟨KeyType.KeyRunes, "M", false⟩)).1.listModel.items =
        [otherPR] ∧
      (busyView.Update ListUpdate.toTop
        (Msg.ofKey ⟨KeyType.KeyRunes, "M", false⟩)).1.inProgressOperations.lookup
        "acme/app/7" = some 2 ∧
      (busyView.Update ListUpdate.toTop
        (Msg.ofKey ⟨KeyType.KeyRunes, "M", false⟩)).2.filter Cmd.isAction =
        [Cmd.mergePullRequest samplePR MergeMethod.MethodSquash] := by
  have h := mergeKey_step ListUpdate.toTop busyView samplePR ⟨KeyType.KeyRunes, "M", false⟩
    MergeMethod.MethodSquash keepsItems_toTop rfl rfl (by decide) (by decide)
  exact ⟨h.2.1, h.2.2.2.1.trans (by decide), h.2.2.2.2.2.2.2⟩

/-- C5, as stated, fails: from the empty tracker of a new view, `MaxInt + 1`
calls of `markInProgress` for one key leave that key with the stored count
`MinInt`, which is negative. -/
theorem tracker_count_wraps_negative :
    (runCalls (newListView []) (List.replicate (MaxInt.toNat + 1)
      (TrackerCall.markInProgress "acme/app" "7"))).inProgressOperations.lookup
        (repoString "acme/app" "7") = some MinInt ∧ MinInt < 0 :=
  ⟨lookup_after_too_many_starts "acme/app" "7" (newListView []) countsPositive_empty
    (Finmap.lookup_empty _), by decide⟩

/-- C5, amended: starting from the empty tracker of a new view, after every
prefix of every sequence of at most `MaxInt` calls of `markInProgress` /
`markDone` (so in every intermediate and in the final state) each stored count
is at least 1, a key is present exactly when its count (0 when absent) is at
least 1, and `hasWorkInProgress` is false exactly when the map is empty. -/
theorem tracker_invariant_from_empty (pullRequests : List pullRequest)
    (calls : List TrackerCall) (i : Nat) (hlen : (calls.length : Int) ≤ MaxInt) :
    (∀ k c, (runCalls (newListView pullRequests) (calls.take i)).inProgressOperations.lookup k
        = some c → 1 ≤ c) ∧
      (∀ k, k ∈ (runCalls (newListView pullRequests) (calls.take i)).inProgressOperations ↔
        1 ≤ ((runCalls (newListView pullRequests)
          (calls.take i)).inProgressOperations.lookup k).getD 0) ∧
      ((runCalls (newListView pullRequests) (calls.take i)).hasWorkInProgress = false ↔
        (runCalls (newListView pullRequests) (calls.take i)).inProgressOperations = ∅) := by
  have hpos : CountsPositive
      (runCalls (newListView pullRequests) (calls.take i)).inProgressOperations := by
    intro k c hc
    have htake : ((calls.take i).length : Int) ≤ MaxInt := by
      have hle : (calls.take i).length ≤ calls.length := by
        rw [List.length_take]
        exact Nat.min_le_right _ _
      have hle' : ((calls.take i).length : Int) ≤ (calls.length : Int) := by
        exact_mod_cast hle
      omega
    have hb := countsBounded_runCalls (calls.take i) (newListView pullRequests) 0
      (le_refl 0) (by omega)
      (fun k c hc => by
        have hemp : (newListView pullRequests).inProgressOperations.lookup k = none :=
          Finmap.lookup_empty k
        rw [hemp] at hc
        cases hc)
    exact (hb k c hc).1
  refine ⟨hpos, ?_, hasWorkInProgress_eq_false_iff _⟩
  intro k
  rw [Finmap.mem_iff]
  constructor
  · rintro ⟨c, hc⟩
    rw [hc]
    exact hpos k c hc
  · intro h
    cases hl : Finmap.lookup k
        (runCalls (newListView pullRequests) (calls.take i)).inProgressOperations with
    | none => rw [hl] at h; simp at h
    | some c => exact ⟨c, rfl⟩

/-- Witness of C5 amended: the state after the first two of `sampleCalls`. -/
theorem tracker_invariant_from_empty_witness :
    ((sampleCalls.length : Int) ≤ MaxInt) ∧
      (∀ k c, (runCalls (newListView [samplePR])
        (sampleCalls.take 2)).inProgressOperations.lookup k = some c → 1 ≤ c) :=
  ⟨by decide, (tracker_invariant_from_empty [samplePR] sampleCalls 2 (by decide)).1⟩

/-- C6: on a tracker whose counts are all at least 1, `markDone` for the key
`k = repository/number` leaves the view unchanged when `k` is absent, removes
the entry when its count is 1, lowers the count to `c - 1` when it is `c > 1`
(one of the three cases always applies), never touches another key, and leaves
all counts at least 1. -/
theorem markDone_cases (m : ListView) (repository number : String)
    (hpos : CountsPositive m.inProgressOperations) :
    (m.inProgressOperations.lookup (repoString repository number) = none →
        m.markDone repository number = m) ∧
      (m.inProgressOperations.lookup (repoString repository number) = some 1 →
        (m.markDone repository number).inProgressOperations.lookup
          (repoString repository number) = none) ∧
      (∀ c, 1 < c → m.inProgressOperations.lookup (repoString repository number) = some c →
        (m.markDone repository number).inProgressOperations.lookup
          (repoString repository number) = some (c - 1)) ∧
      (∀ k, k ≠ repoString repository number →
        (m.markDone repository number).inProgressOperations.lookup k =
          m.inProgressOperations.lookup k) ∧
      (m.inProgressOperations.lookup (repoString repository number) = none ∨
        m.inProgressOperations.lookup (repoString repository number) = some 1 ∨
        ∃ c, 1 < c ∧ m.inProgressOperations.lookup (repoString repository number) = some c) ∧
      CountsPositive (m.markDone repository number).inProgressOperations := by
  refine ⟨?_, ?_, ?_, ?_, ?_, countsPositive_markDone m repository number hpos⟩
  · intro h
    simp [ListView.markDone, h]
  · intro h
    rw [lookup_markDone, if_pos rfl, h]
    rfl
  · intro c hc h
    rw [lookup_markDone, if_pos rfl, h]
    have hnot : ¬ (c - 1 ≤ 0) := by omega
    simp only [intDec_of_pos c (by omega), if_neg hnot]
  · intro k hk
    rw [lookup_markDone, if_neg hk]
  · cases h : Finmap.lookup (repoString repository number) m.inProgressOperations with
    | none => exact Or.inl rfl
    | some c =>
      have hc := hpos _ c h
      rcases eq_or_lt_of_le hc with h1 | h1
      · exact Or.inr (Or.inl (by rw [h1]))
      · exact Or.inr (Or.inr ⟨c, h1, rfl⟩)

/-- Witness of C6: `markDone` for `acme/app/7` on `busyView`, where that key has
count 1. -/
theorem markDone_cases_witness :
    CountsPositive busyView.inProgressOperations ∧
      busyView.inProgressOperations.lookup (repoString "acme/app" "7") = some 1 ∧
      (busyView.markDone "acme/app" "7").inProgressOperations.lookup
        (repoString "acme/app" "7") = none ∧
      (busyView.markDone "ghost/repo" "1") = busyView :=
  ⟨countsPositive_busyView, by decide,
    (markDone_cases busyView "acme/app" "7" countsPositive_busyView).2.1 (by decide),
    (markDone_cases busyView "ghost/repo" "1" countsPositive_busyView).1 (by decide)⟩

/-- C7, as stated, fails: in `saturatedView` the key `acme/app/7` has count
`MaxInt`, and `markInProgress` for it stores `MinInt`, not the previous count
plus one. -/
theorem markInProgress_wraps_at_MaxInt :
    saturatedView.inProgressOperations.lookup ("acme/app" ++ "/" ++ "7") = some MaxInt ∧
      (saturatedView.markInProgress "acme/app" "7").inProgressOperations.lookup
        ("acme/app" ++ "/" ++ "7") = some MinInt ∧
      MinInt ≠ MaxInt + 1 := by
  refine ⟨by decide, by decide, by decide⟩

/-- C7, amended: `markInProgress` sets the count of the key
`repository ++ "/" ++ number` to 1 when the key is absent and to its previous
count plus one when that count is below `MaxInt` (at `MaxInt` the count wraps
to `MinInt`), and leaves the entry of every other key (and the rest of the
view) unchanged. -/
theorem markInProgress_cases (m : ListView) (repository number : String) :
    (m.inProgressOperations.lookup (repository ++ "/" ++ number) = none →
        (m.markInProgress repository number).inProgressOperations.lookup
          (repository ++ "/" ++ number) = some 1) ∧
      (∀ c, m.inProgressOperations.lookup (repository ++ "/" ++ number) = some c →
        c < MaxInt →
        (m.markInProgress repository number).inProgressOperations.lookup
          (repository ++ "/" ++ number) = some (c + 1)) ∧
      (m.inProgressOperations.lookup (repository ++ "/" ++ number) = some MaxInt →
        (m.markInProgress repository number).inProgressOperations.lookup
          (repository ++ "/" ++ number) = some MinInt) ∧
      (∀ k, k ≠ repository ++ "/" ++ number →
        (m.markInProgress repository number).inProgressOperations.lookup k =
          m.inProgressOperations.lookup k) ∧
      (m.markInProgress repository number).listModel = m.listModel := by
  have hkey : repository ++ "/" ++ number = repoString repository number := rfl
  refine ⟨?_, ?_, ?_, ?_, rfl⟩
  · intro h
    rw [hkey] at h ⊢
    rw [lookup_markInProgress, if_pos rfl, h]
    rfl
  · intro c h hc
    rw [hkey] at h ⊢
    rw [lookup_markInProgress, if_pos rfl, h, Option.getD_some, intInc_of_lt c hc]
  · intro h
    rw [hkey] at h ⊢
    rw [lookup_markInProgress, if_pos rfl, h]
    rfl
  · intro k hk
    rw [lookup_markInProgress]
    exact if_neg hk

/-- Witness of C7 amended: a start for `acme/app/7` on `busyView`, where the key
has count 1, and on `saturatedView`, where it has count `MaxInt`. -/
theorem markInProgress_cases_witness :
    (busyView.markInProgress "acme/app" "7").inProgressOperations.lookup
        ("acme/app" ++ "/" ++ "7") = some (1 + 1) ∧
      (saturatedView.markInProgress "acme/app" "7").inProgressOperations.lookup
        ("acme/app" ++ "/" ++ "7") = some MinInt :=
  ⟨(markInProgress_cases busyView "acme/app" "7").2.1 1 (by decide) (by decide),
    (markInProgress_cases saturatedView "acme/app" "7").2.2.1 (by decide)⟩

/-- C8, as stated, fails: in `saturatedView` all counts are at least 1 and the
key `acme/app/7` has count `MaxInt`; the first of two starts stores the
negative count `MinInt`, and after two starts and two completions the key has
no entry, so the tracker is not back at its starting state. -/
theorem roundtrip_fails_at_MaxInt :
    CountsPositive saturatedView.inProgressOperations ∧
      saturatedView.inProgressOperations.lookup (repoString "acme/app" "7") = some MaxInt ∧
      ((fun v : ListView => v.markInProgress "acme/app" "7")^[1]
        saturatedView).inProgressOperations.lookup (repoString "acme/app" "7") = some MinInt ∧
      MinInt < 0 ∧
      ((fun v : ListView => v.markDone "acme/app" "7")^[2]
        ((fun v : ListView => v.markInProgress "acme/app" "7")^[2]
          saturatedView)).inProgressOperations.lookup (repoString "acme/app" "7") = none := by
  refine ⟨countsPositive_saturatedView, by decide, by decide, by decide, by decide⟩

/-- C8, amended: on a tracker whose counts are all at least 1, when the count
of the key (0 when absent) plus `N` does not exceed `MaxInt`, `N` calls of
`markInProgress` for the key followed by `N` calls of `markDone` for it give
back exactly the starting view; a key absent at the start is absent at the
end; and after any `i ≤ N` of the starts and after any `j ≤ N` of the
completions every stored count is at least 1, hence none is negative. -/
theorem markInProgress_markDone_roundtrip (m : ListView) (repository number : String)
    (N : Nat) (hpos : CountsPositive m.inProgressOperations)
    (hroom : (m.inProgressOperations.lookup (repoString repository number)).getD 0 + N ≤
      MaxInt) :
    ((fun v : ListView => v.markDone repository number)^[N]
        ((fun v : ListView => v.markInProgress repository number)^[N] m) = m) ∧
      (m.inProgressOperations.lookup (repoString repository number) = none →
        ((fun v : ListView => v.markDone repository number)^[N]
          ((fun v : ListView => v.markInProgress repository number)^[N]
            m)).inProgressOperations.lookup (repoString repository number) = none) ∧
      (∀ i, i ≤ N → ∀ k c,
        ((fun v : ListView => v.markInProgress repository number)^[i]
          m).inProgressOperations.lookup k = some c → 1 ≤ c) ∧
      (∀ j, j ≤ N → ∀ k c,
        ((fun v : ListView => v.markDone repository number)^[j]
          ((fun v : ListView => v.markInProgress repository number)^[N]
            m)).inProgressOperations.lookup k = some c → 1 ≤ c) := by
  have hround := iterate_markDone_markInProgress repository number N m hpos hroom
  refine ⟨hround, ?_, ?_, ?_⟩
  · intro h
    rw [hround]
    exact h
  · intro i hi
    have hroomi : (m.inProgressOperations.lookup (repoString repository number)).getD 0 + i ≤
        MaxInt := by
      have : (i : Int) ≤ (N : Int) := by exact_mod_cast hi
      omega
    exact (iterate_markInProgress_of_room repository number i m hpos hroomi).1
  · intro j _
    exact countsPositive_iterate_markDone repository number j _
      (iterate_markInProgress_of_room repository number N m hpos hroom).1

/-- Witness of C8 amended: three starts and three completions for `acme/app/7`
on `busyView`. -/
theorem markInProgress_markDone_roundtrip_witness :
    CountsPositive busyView.inProgressOperations ∧
      (fun v : ListView => v.markDone "acme/app" "7")^[3]
        ((fun v : ListView => v.markInProgress "acme/app" "7")^[3] busyView) = busyView :=
  ⟨countsPositive_busyView,
    (markInProgress_markDone_roundtrip busyView "acme/app" "7" 3 countsPositive_busyView
      (by decide)).1⟩

/-- C9, as stated, fails: in `busyView` the key `acme/app/7` has count 1 (all
counts are at least 1); after one more start and its completion the count is 1
again, and a second delivery of that completion removes the entry, so the second
`markDone` is not a no-op. -/
theorem second_markDone_not_noop :
    CountsPositive busyView.inProgressOperations ∧
      ((busyView.markInProgress "acme/app" "7").markDone
        "acme/app" "7").inProgressOperations.lookup "acme/app/7" = some 1 ∧
      (((busyView.markInProgress "acme/app" "7").markDone "acme/app" "7").markDone
        "acme/app" "7").inProgressOperations.lookup "acme/app/7" = none ∧
      ((busyView.markInProgress "acme/app" "7").markDone "acme/app" "7").markDone
        "acme/app" "7" ≠ (busyView.markInProgress "acme/app" "7").markDone "acme/app" "7" := by
  refine ⟨countsPositive_busyView, by decide, by decide, ?_⟩
  intro h
  have h2 := congrArg
    (fun v : ListView => v.inProgressOperations.lookup "acme/app/7") h
  revert h2
  decide

/-- C9, amended: on a tracker whose counts are all at least 1, after
`markInProgress` and `markDone` for a key, a second `markDone` for it leaves the
view unchanged when the key had no entry at the start; when the key had count
`c`, the second `markDone` lowers it to `c - 1` (removing the entry for `c = 1`);
in both cases every other key is untouched and every stored count stays at
least 1, so no count becomes negative. -/
theorem second_markDone (m : ListView) (repository number : String)
    (hpos : CountsPositive m.inProgressOperations) :
    (m.inProgressOperations.lookup (repoString repository number) = none →
        ((m.markInProgress repository number).markDone repository number).markDone
          repository number =
        (m.markInProgress repository number).markDone repository number) ∧
      (∀ c, m.inProgressOperations.lookup (repoString repository number) = some c →
        (((m.markInProgress repository number).markDone repository number).markDone
          repository number).inProgressOperations.lookup (repoString repository number) =
          if c = 1 then none else some (c - 1)) ∧
      (∀ k, k ≠ repoString repository number →
        (((m.markInProgress repository number).markDone repository number).markDone
          repository number).inProgressOperations.lookup k =
          m.inProgressOperations.lookup k) ∧
      (∀ k c,
        ((m.markInProgress repository number).markDone
          repository number).inProgressOperations.lookup k = some c → 0 ≤ c ∧ 1 ≤ c) ∧
      (∀ k c,
        (((m.markInProgress repository number).markDone repository number).markDone
          repository number).inProgressOperations.lookup k = some c → 0 ≤ c ∧ 1 ≤ c) := by
  have hone := markDone_markInProgress m repository number hpos
  rw [hone]
  refine ⟨?_, ?_, ?_, ?_, ?_⟩
  · intro h
    simp [ListView.markDone, h]
  · intro c h
    rw [lookup_markDone, if_pos rfl, h]
    have hc := hpos _ c h
    by_cases h1 : c = 1
    · subst h1
      rfl
    · have h0 : ¬ (c - 1 ≤ 0) := by omega
      simp only [intDec_of_pos c hc, if_neg h0, if_neg h1]
  · intro k hk
    rw [lookup_markDone, if_neg hk]
  · intro k c h
    have := hpos k c h
    omega
  · intro k c h
    have := countsPositive_markDone m repository number hpos k c h
    omega

/-- Witness of C9 amended: `newListView [samplePR]`, whose tracker is empty, so
the second completion for `acme/app/7` changes nothing. -/
theorem second_markDone_witness :
    CountsPositive (newListView [samplePR]).inProgressOperations ∧
      (((newListView [samplePR]).markInProgress "acme/app" "7").markDone "acme/app" "7").markDone
          "acme/app" "7" =
        ((newListView [samplePR]).markInProgress "acme/app" "7").markDone "acme/app" "7" :=
  ⟨countsPositive_empty,
    (second_markDone (newListView [samplePR]) "acme/app" "7" countsPositive_empty).1
      (by decide)⟩

/-! ## Theorems: the duplicate filter -/

theorem addToPackageMap_eq (pm : PackageMap) (pr : pullRequest) :
    addToPackageMap pm pr =
      match packageKey pr with
      | some k => pm.insert k ((pm.lookup k).getD [] ++ [pr])
      | none => pm := by
  unfold addToPackageMap packageKey packageName?
  generalize FindStringSubmatch pr.title = info
  rcases info with _ | ⟨a, _ | ⟨b, rest⟩⟩ <;> simp

theorem lookup_foldl_addToPackageMap (prs : List pullRequest) (pm : PackageMap) (k : String) :
    (prs.foldl addToPackageMap pm).lookup k =
      if prs.filter (fun p => decide (packageKey p = some k)) = [] then pm.lookup k
      else some ((pm.lookup k).getD [] ++
        prs.filter (fun p => decide (packageKey p = some k))) := by
  induction prs generalizing pm with
  | nil => simp
  | cons p prs ih =>
    rw [List.foldl_cons, ih, addToPackageMap_eq]
    cases hp : packageKey p with
    | none => simp [hp]
    | some k' =>
      by_cases hk : k' = k
      · subst hk
        simp only [hp, AList.lookup_insert, Option.getD_some, decide_True, List.filter_cons_of_pos,
          reduceCtorEq, if_false]
        split_ifs with h0
        · rw [h0]
        · rw [List.append_assoc, List.singleton_append]
      · have hk2 : k ≠ k' := fun h => hk h.symm
        have hd : decide (some k' = some k) = false := by simp [hk]
        simp only [hp, AList.lookup_insert_ne hk2, hd, Bool.false_eq_true, not_false_eq_true,
          List.filter_cons_of_neg]

theorem lookup_packageMap (prs : List pullRequest) (k : String) :
    (prs.foldl addToPackageMap ∅).lookup k =
      if prs.filter (fun p => decide (packageKey p = some k)) = [] then none
      else some (prs.filter (fun p => decide (packageKey p = some k))) := by
  rw [lookup_foldl_addToPackageMap]
  simp [AList.lookup_empty]

theorem foldl_collect (it : List (Σ _ : String, List pullRequest)) (acc : List pullRequest) :
    it.foldl (fun filtered prs => if prs.2.length > 1 then filtered ++ prs.2 else filtered) acc =
      acc ++ ((it.filter (fun e => decide (1 < e.2.length))).map (fun e => e.2)).flatten := by
  induction it generalizing acc with
  | nil => simp
  | cons e it ih =>
    rw [List.foldl_cons, ih]
    by_cases h : 1 < e.2.length
    · simp [h, List.append_assoc]
    · simp [h]

theorem filter_or_perm (prs : List pullRequest) (k : String) (ks : List String)
    (hk : k ∉ ks) :
    (prs.filter (fun p => decide (packageKey p = some k)) ++
        prs.filter (fun p => decide (∃ k' ∈ ks, packageKey p = some k'))).Perm
      (prs.filter (fun p => decide (∃ k' ∈ k :: ks, packageKey p = some k'))) := by
  have h := List.filter_append_perm (fun p => decide (packageKey p = some k))
    (prs.filter (fun p => decide (∃ k' ∈ k :: ks, packageKey p = some k')))
  rw [List.filter_filter, List.filter_filter] at h
  have e1 : prs.filter (fun a => decide (packageKey a = some k) &&
        decide (∃ k' ∈ k :: ks, packageKey a = some k')) =
      prs.filter (fun p => decide (packageKey p = some k)) := by
    apply List.filter_congr
    intro x _
    by_cases hx : packageKey x = some k <;> simp [hx]
  have e2 : prs.filter (fun a => (!decide (packageKey a = some k)) &&
        decide (∃ k' ∈ k :: ks, packageKey a = some k')) =
      prs.filter (fun p => decide (∃ k' ∈ ks, packageKey p = some k')) := by
    apply List.filter_congr
    intro x _
    by_cases hx : packageKey x = some k
    · simp [hx, hk]
    · simp [hx]
  rw [e1, e2] at h
  exact h

theorem flatten_groups_perm (prs : List pullRequest) (ks : List String) (hnd : ks.Nodup) :
    ((ks.map (fun k => prs.filter (fun p => decide (packageKey p = some k)))).flatten).Perm
      (prs.filter (fun p => decide (∃ k ∈ ks, packageKey p = some k))) := by
  induction ks with
  | nil => simp
  | cons k ks ih =>
    obtain ⟨hk, hnd'⟩ := List.nodup_cons.mp hnd
    rw [List.map_cons, List.flatten_cons]
    exact ((ih hnd').append_left _).trans (filter_or_perm prs k ks hk)

theorem entry_packageMap (prs : List pullRequest) (e : Σ _ : String, List pullRequest)
    (he : e ∈ (prs.foldl addToPackageMap (∅ : PackageMap)).entries) :
    e.2 = prs.filter (fun p => decide (packageKey p = some e.1)) := by
  obtain ⟨k, v⟩ := e
  have h := (AList.mem_lookup_iff (s := prs.foldl addToPackageMap (∅ : PackageMap))).mpr he
  rw [lookup_packageMap] at h
  split_ifs at h with h0
  · cases h
  · simp only [Option.mem_def, Option.some.injEq] at h
    exact h.symm

theorem mem_keys_big (prs : List pullRequest) (k : String) :
    k ∈ (((prs.foldl addToPackageMap (∅ : PackageMap)).entries.filter
        (fun e => decide (1 < e.2.length))).map (fun e => e.1)) ↔
      1 < (prs.filter (fun p => decide (packageKey p = some k))).length := by
  simp only [List.mem_map, List.mem_filter, decide_eq_true_eq]
  constructor
  · rintro ⟨e, ⟨he, hbig⟩, rfl⟩
    rw [entry_packageMap prs e he] at hbig
    exact hbig
  · intro h
    refine ⟨⟨k, prs.filter (fun p => decide (packageKey p = some k))⟩, ⟨?_, h⟩, rfl⟩
    apply (AList.mem_lookup_iff (s := prs.foldl addToPackageMap (∅ : PackageMap))).mp
    rw [lookup_packageMap, if_neg]
    · rfl
    · intro h0
      rw [h0] at h
      simp at h

/-- The output of the filter is, up to order, the input restricted to the units
whose grouping key occurs at least twice. -/
theorem filterDuplicates_perm (range : RangeOrder) (prs : List pullRequest) :
    (filterDuplicatePullRequests range prs).1.Perm (prs.filter (isDuplicate prs)) := by
  unfold filterDuplicatePullRequests
  simp only []
  rw [foldl_collect, List.nil_append]
  have hnd : (((prs.foldl addToPackageMap (∅ : PackageMap)).entries.filter
      (fun e => decide (1 < e.2.length))).map (fun e => e.1)).Nodup := by
    have hsub := (List.filter_sublist (p := fun e : (Σ _ : String, List pullRequest) =>
      decide (1 < e.2.length)) (prs.foldl addToPackageMap (∅ : PackageMap)).entries).map
      (fun e => e.1)
    exact List.Nodup.sublist hsub (prs.foldl addToPackageMap (∅ : PackageMap)).keys_nodup
  have hmap : ((prs.foldl addToPackageMap (∅ : PackageMap)).entries.filter
        (fun e => decide (1 < e.2.length))).map (fun e => e.2) =
      ((((prs.foldl addToPackageMap (∅ : PackageMap)).entries.filter
        (fun e => decide (1 < e.2.length))).map (fun e => e.1)).map
          (fun k => prs.filter (fun p => decide (packageKey p = some k)))) := by
    rw [List.map_map]
    apply List.map_congr_left
    intro e he
    exact entry_packageMap prs e (List.mem_filter.mp he).1
  have h1 := ((((range.perm (prs.foldl addToPackageMap (∅ : PackageMap)).entries).filter
    (fun e => decide (1 < e.2.length))).map (fun e => e.2)).flatten)
  refine h1.trans ?_
  rw [hmap]
  refine (flatten_groups_perm prs _ hnd).trans ?_
  apply List.Perm.of_eq
  apply List.filter_congr
  intro p _
  unfold isDuplicate
  cases hp : packageKey p with
  | none => simp
  | some k =>
    have hiff := mem_keys_big prs k
    simp only [Option.some.injEq, exists_eq_right']
    by_cases hbig : 1 < (prs.filter (fun p => decide (packageKey p = some k))).length
    · rw [decide_eq_true hbig, decide_eq_true (hiff.mpr hbig)]
    · rw [decide_eq_false hbig, decide_eq_false (fun h => hbig (hiff.mp h))]

theorem isNameChar_digit (d : Char) (h : d.isDigit = true) : isNameChar d = false := by
  unfold isNameChar
  simp only [Char.isDigit, Bool.and_eq_true, decide_eq_true_eq] at h
  obtain ⟨h1, h2⟩ := h
  have h1' : 48 ≤ d.val.toNat := h1
  have h2' : d.val.toNat ≤ 57 := h2
  have e1 : ¬ ('a' ≤ d) := by
    intro h
    have : (97 : Nat) ≤ d.val.toNat := h
    omega
  have e2 : ¬ ('A' ≤ d) := by
    intro h
    have : (65 : Nat) ≤ d.val.toNat := h
    omega
  have e3 : d ≠ '@' := by
    rintro rfl
    revert h2'
    decide
  have e4 : d ≠ '/' := by
    rintro rfl
    revert h1'
    decide
  have e5 : d ≠ '-' := by
    rintro rfl
    revert h1'
    decide
  simp [e1, e2, e3, e4, e5]

theorem takeWhile_stop {α : Type} (p : α → Bool) (l : List α) (d : α) (r : List α)
    (hl : ∀ x ∈ l, p x = true) (hd : p d = false) : (l ++ d :: r).takeWhile p = l := by
  induction l with
  | nil => simp [List.takeWhile, hd]
  | cons a l ih =>
    have ha := hl a (List.mem_cons_self a l)
    simp only [List.cons_append, List.takeWhile_cons, ha, if_true]
    rw [ih (fun x hx => hl x (List.mem_cons_of_mem a hx))]

/-- On `Bump ` followed by text whose longest prefix of class characters is the
non-empty `name`, the leftmost match starts at the first character and captures
`name`. -/
theorem findSubmatch_bump (rest name : List Char) (hname : rest.takeWhile isNameChar = name)
    (hne : name ≠ []) :
    findSubmatch ('B' :: 'u' :: 'm' :: 'p' :: ' ' :: rest) =
      [String.mk ('B' :: 'u' :: 'm' :: 'p' :: ' ' :: name), String.mk name] := by
  have hemp : name.isEmpty = false := by
    cases name with
    | nil => exact absurd rfl hne
    | cons a l => rfl
  simp [findSubmatch, matchHere, hname, hemp]

theorem packageName?_of_submatch (title whole name : String)
    (h : FindStringSubmatch title = [whole, name]) : packageName? title = some name := by
  unfold packageName?
  rw [h]

theorem two_le_filter_of_lt {α : Type} (l : List α) (p : α → Bool) (i j : Nat)
    (hj : j < l.length) (hij : i < j) (hpi : p (l[i]) = true) (hpj : p (l[j]) = true) :
    1 < (l.filter p).length := by
  rw [← List.countP_eq_length_filter]
  have hsplit : l = l.take j ++ l[j] :: l.drop (j + 1) := by
    rw [List.getElem_cons_drop, List.take_append_drop]
  have hmem : l[i] ∈ l.take j := by
    rw [List.mem_iff_getElem]
    refine ⟨i, ?_, ?_⟩
    · rw [List.length_take]
      omega
    · rw [List.getElem_take]
  have h1 : 0 < List.countP p (l.take j) := List.countP_pos_iff.mpr ⟨l[i], hmem, hpi⟩
  have h2 : List.countP p (l.take j ++ l[j] :: l.drop (j + 1)) =
      List.countP p (l.take j) + (List.countP p (l.drop (j + 1)) + 1) := by
    rw [List.countP_append, List.countP_cons_of_pos _ _ hpj]
  rw [hsplit, h2]
  omega

theorem two_le_filter_of_ne {α : Type} (l : List α) (p : α → Bool) (i j : Nat)
    (hi : i < l.length) (hj : j < l.length) (hij : i ≠ j)
    (hpi : p (l[i]) = true) (hpj : p (l[j]) = true) :
    1 < (l.filter p).length := by
  rcases Nat.lt_or_gt_of_ne hij with h | h
  · exact two_le_filter_of_lt l p i j hj h hpi hpj
  · exact two_le_filter_of_lt l p j i hi h hpj hpi

theorem isDuplicate_of_shared (prs : List pullRequest) (i j : Nat) (hi : i < prs.length)
    (hj : j < prs.length) (n : String) (hij : i ≠ j)
    (hni : packageName? prs[i].title = some n) (hnj : packageName? prs[j].title = some n)
    (hrepo : prs[i].repository = prs[j].repository) :
    isDuplicate prs prs[i] = true := by
  have hki : packageKey prs[i] = some (n ++ prs[i].repository) := by
    simp [packageKey, hni]
  have hkj : packageKey prs[j] = some (n ++ prs[i].repository) := by
    simp [packageKey, hnj, hrepo]
  unfold isDuplicate
  rw [hki]
  simp only [decide_eq_true_eq]
  exact two_le_filter_of_ne prs _ i j hi hj hij (by simp [hki]) (by simp [hkj])

/-! ## Claims about the duplicate filter -/

/-- C3 (the code departs from the claim): the two units of `collidingUnits`
have titles that parse to the different names `foo` and `foobar` and lie in the
different repositories `barorg/r` and `org/r`, yet both get the grouping key
`foobarorg/r`, and for every iteration order the filter returns both of them:
each is returned although no other unit shares its name and repository. -/
theorem colliding_keys_share_a_group (range : RangeOrder) :
    packageName? "Bump foo" = some "foo" ∧
      packageName? "Bump foobar" = some "foobar" ∧
      packageKey (unit "barorg/r" "1" "Bump foo") = some "foobarorg/r" ∧
      packageKey (unit "org/r" "2" "Bump foobar") = some "foobarorg/r" ∧
      (filterDuplicatePullRequests range collidingUnits).1.Perm
        [unit "barorg/r" "1" "Bump foo", unit "org/r" "2" "Bump foobar"] ∧
      (filterDuplicatePullRequests RangeOrder.stored collidingUnits).1 =
        [unit "barorg/r" "1" "Bump foo", unit "org/r" "2" "Bump foobar"] := by
  refine ⟨by decide, by decide, by decide, by decide, ?_, by decide⟩
  exact (filterDuplicates_perm range collidingUnits).trans (List.Perm.of_eq (by decide))

/-- C4: for every input and every iteration order of the map, each input unit
whose title parses and that shares name and repository with a unit at another
position is in the output, as often as it is in the input; the output is a
permutation of a sub-sequence of the input, so no unit occurs in it more often
than in the input; and for the titles `Bump lodash`, `bump lodash`, `Bump axios`
of one repository the output consists of exactly the two lodash units. -/
theorem filterDuplicates_loses_and_duplicates_nothing (range : RangeOrder)
    (prs : List pullRequest) :
    (∀ (i j : Nat) (hi : i < prs.length) (hj : j < prs.length) (n : String), i ≠ j →
        packageName? prs[i].title = some n → packageName? prs[j].title = some n →
        prs[i].repository = prs[j].repository →
        prs[i] ∈ (filterDuplicatePullRequests range prs).1 ∧
          (filterDuplicatePullRequests range prs).1.count prs[i] = prs.count prs[i]) ∧
      (filterDuplicatePullRequests range prs).1.Subperm prs ∧
      (∀ u, (filterDuplicatePullRequests range prs).1.count u ≤ prs.count u) ∧
      (filterDuplicatePullRequests range lodashExample).1.Perm
        [unit "A" "1" "Bump lodash", unit "A" "2" "bump lodash"] ∧
      (filterDuplicatePullRequests RangeOrder.stored lodashExample).1 =
        [unit "A" "1" "Bump lodash", unit "A" "2" "bump lodash"] ∧
      (filterDuplicatePullRequests RangeOrder.reversed lodashExample).1 =
        [unit "A" "1" "Bump lodash", unit "A" "2" "bump lodash"] := by
  have hperm := filterDuplicates_perm range prs
  have hsub : (filterDuplicatePullRequests range prs).1.Subperm prs :=
    (List.Perm.subperm_right hperm).mpr (List.filter_sublist prs).subperm
  refine ⟨?_, hsub, hsub.count_le, ?_, by decide, by decide⟩
  · intro i j hi hj n hij hni hnj hrepo
    have hdup := isDuplicate_of_shared prs i j hi hj n hij hni hnj hrepo
    have hmem : prs[i] ∈ prs.filter (isDuplicate prs) :=
      List.mem_filter.mpr ⟨List.getElem_mem hi, hdup⟩
    refine ⟨hperm.symm.subset hmem, ?_⟩
    rw [hperm.count_eq, List.count_filter hdup]
  · exact (filterDuplicates_perm range lodashExample).trans (List.Perm.of_eq (by decide))

/-- Witness of C4: in `lodashExample` the units at positions 0 and 1 share the
name `lodash` and the repository `A`; the first one is in the output once. -/
theorem filterDuplicates_loses_and_duplicates_nothing_witness :
    unit "A" "1" "Bump lodash" ∈ (filterDuplicatePullRequests RangeOrder.reversed lodashExample).1 ∧
      (filterDuplicatePullRequests RangeOrder.reversed lodashExample).1.count
        (unit "A" "1" "Bump lodash") = 1 :=
  ⟨((filterDuplicates_loses_and_duplicates_nothing RangeOrder.reversed lodashExample).1 0 1
      (by decide) (by decide) "lodash" (by decide) (by decide) (by decide) (by decide)).1,
    ((filterDuplicates_loses_and_duplicates_nothing RangeOrder.reversed lodashExample).1 0 1
      (by decide) (by decide) "lodash" (by decide) (by decide) (by decide) (by decide)).2.trans
      (by decide)⟩

/-- C10, as stated, fails: `h2` consists of a letter and a digit, but the title
`Bump h2` parses to the name `h`, not `h2`; `Bump h3` parses to `h` as well, and
the two units of `digitUnits`, in one repository, are returned as duplicates of
each other. -/
theorem digit_cuts_package_name :
    "h2".data.all (fun c => c.isAlphanum || c == '@' || c == '/' || c == '-') = true ∧
      FindStringSubmatch ("Bump " ++ "h2") = ["Bump h", "h"] ∧
      packageName? ("Bump " ++ "h2") ≠ some "h2" ∧
      packageName? ("Bump " ++ "h2") = packageName? ("Bump " ++ "h3") ∧
      (filterDuplicatePullRequests RangeOrder.stored digitUnits).1 =
        [unit "A" "1" "Bump h2", unit "A" "2" "Bump h3"] := by
  refine ⟨by decide, by decide, by decide, by decide, by decide⟩

/-- C10, amended: the extracted name admits the ASCII letters, `@`, `/` and `-`
and no digits. For every non-empty `s` over those characters the title
`"Bump " ++ s` parses, with match `"Bump " ++ s` and package identity `s`; a
digit after `s` ends the name, so `"Bump " ++ s ++ d ++ rest` has identity `s`
too. In particular `Bump h2` and `Bump h3` both get the identity `h`, and two
such units of one repository are returned as duplicates of each other, for
every iteration order. -/
theorem bump_name_without_digits (s : String) (hne : s ≠ "")
    (hs : ∀ c ∈ s.data,
      ('a' ≤ c ∧ c ≤ 'z') ∨ ('A' ≤ c ∧ c ≤ 'Z') ∨ c = '@' ∨ c = '/' ∨ c = '-') :
    FindStringSubmatch ("Bump " ++ s) = ["Bump " ++ s, s] ∧
      packageName? ("Bump " ++ s) = some s ∧
      (∀ (d : Char) (rest : String), d.isDigit = true →
        packageName? ("Bump " ++ s ++ String.singleton d ++ rest) = some s) ∧
      packageName? "Bump h2" = some "h" ∧ packageName? "Bump h3" = some "h" ∧
      (∀ range : RangeOrder, (filterDuplicatePullRequests range digitUnits).1.Perm
        [unit "A" "1" "Bump h2", unit "A" "2" "Bump h3"]) := by
  obtain ⟨cs⟩ := s
  have hcs : cs ≠ [] := by
    intro h
    exact hne (by rw [h])
  have hall : ∀ x ∈ cs, isNameChar x = true := by
    intro x hx
    unfold isNameChar
    exact decide_eq_true (hs x hx)
  have hfind : FindStringSubmatch ("Bump " ++ String.mk cs) =
      ["Bump " ++ String.mk cs, String.mk cs] :=
    findSubmatch_bump cs cs (List.takeWhile_eq_self_iff.mpr hall) hcs
  refine ⟨hfind, packageName?_of_submatch _ _ _ hfind, ?_, by decide, by decide, ?_⟩
  · intro d rest hd
    obtain ⟨rs⟩ := rest
    have hdata : ("Bump " ++ String.mk cs ++ String.singleton d ++ String.mk rs).data =
        'B' :: 'u' :: 'm' :: 'p' :: ' ' :: (cs ++ d :: rs) := by
      rw [String.data_append, String.data_append, String.data_append]
      show ['B', 'u', 'm', 'p', ' '] ++ cs ++ [d] ++ rs = _
      simp
    have hfind2 : FindStringSubmatch ("Bump " ++ String.mk cs ++ String.singleton d ++
        String.mk rs) = ["Bump " ++ String.mk cs, String.mk cs] := by
      unfold FindStringSubmatch
      rw [hdata]
      exact findSubmatch_bump (cs ++ d :: rs) cs
        (takeWhile_stop isNameChar cs d rs hall (isNameChar_digit d hd)) hcs
    exact packageName?_of_submatch _ _ _ hfind2
  · intro range
    exact (filterDuplicates_perm range digitUnits).trans (List.Perm.of_eq (by decide))

/-- Witness of C10 amended: the name `@types/node`. -/
theorem bump_name_without_digits_witness :
    FindStringSubmatch ("Bump " ++ "@types/node") = ["Bump " ++ "@types/node", "@types/node"] ∧
      packageName? ("Bump " ++ "@types/node" ++ String.singleton '2' ++ " from 1 to 3") =
        some "@types/node" :=
  ⟨(bump_name_without_digits "@types/node" (by decide) (by decide)).1,
    (bump_name_without_digits "@types/node" (by decide) (by decide)).2.2.1 '2' " from 1 to 3"
      (by decide)⟩

/-! ## Theorems: more on the pattern -/

theorem matchHere_none_of_no_space (cs : List Char) (h : ' ' ∉ cs.drop 4) :
    matchHere cs = none := by
  rcases cs with _ | ⟨c0, _ | ⟨c1, _ | ⟨c2, _ | ⟨c3, _ | ⟨c4, rest⟩⟩⟩⟩⟩ <;> try rfl
  have h4 : c4 ≠ ' ' := by
    intro h'
    apply h
    simp [h']
  simp [matchHere, h4]

/-- Without a space from the fifth character on, the pattern matches nowhere. -/
theorem findSubmatch_nil_of_no_space (cs : List Char) (h : ' ' ∉ cs.drop 4) :
    findSubmatch cs = [] := by
  induction cs with
  | nil => rfl
  | cons c cs ih =>
    have hm := matchHere_none_of_no_space (c :: cs) h
    have h' : ' ' ∉ cs.drop 4 := by
      intro hmem
      apply h
      have hdd : cs.drop 4 = (cs.drop 3).drop 1 := by rw [List.drop_drop]
      rw [hdd] at hmem
      exact List.mem_of_mem_drop hmem
    simp only [findSubmatch, hm]
    exact ih h'

theorem findSubmatch_lower (rest name : List Char)
    (hname : rest.takeWhile isNameChar = name) (hne : name ≠ []) :
    findSubmatch ('b' :: 'u' :: 'm' :: 'p' :: ' ' :: rest) =
      [String.mk ('b' :: 'u' :: 'm' :: 'p' :: ' ' :: name), String.mk name] := by
  have hemp : name.isEmpty = false := by
    cases name with
    | nil => exact absurd rfl hne
    | cons a l => rfl
  simp [findSubmatch, matchHere, hname, hemp]

theorem findSubmatch_other_spelling (c0 c1 c2 c3 : Char) (cs : List Char)
    (hump : ¬ (c1 = 'u' ∧ c2 = 'm' ∧ c3 = 'p')) (hcs : ' ' ∉ cs) :
    findSubmatch (c0 :: c1 :: c2 :: c3 :: ' ' :: cs) = [] := by
  have h0 : matchHere (c0 :: c1 :: c2 :: c3 :: ' ' :: cs) = none := by
    have hcond : ¬ ((c0 = 'b' ∨ c0 = 'B') ∧ c1 = 'u' ∧ c2 = 'm' ∧ c3 = 'p' ∧ True) :=
      fun h => hump ⟨h.2.1, h.2.2.1, h.2.2.2.1⟩
    simp only [matchHere, if_neg hcond]
  simp only [findSubmatch, h0]
  exact findSubmatch_nil_of_no_space (c1 :: c2 :: c3 :: ' ' :: cs) hcs

theorem filter_pair_of_shared (range : RangeOrder) (a b : pullRequest) (n : String)
    (ha : packageName? a.title = some n) (hb : packageName? b.title = some n)
    (hrepo : a.repository = b.repository) :
    (filterDuplicatePullRequests range [a, b]).1.Perm [a, b] := by
  have h0 : isDuplicate [a, b] a = true :=
    isDuplicate_of_shared [a, b] 0 1 (by simp) (by simp) n (by decide) ha hb hrepo
  have h1 : isDuplicate [a, b] b = true :=
    isDuplicate_of_shared [a, b] 1 0 (by simp) (by simp) n (by decide) hb ha hrepo.symm
  have hfil : [a, b].filter (isDuplicate [a, b]) = [a, b] := by
    simp [List.filter, h0, h1]
  exact (filterDuplicates_perm range [a, b]).trans (List.Perm.of_eq hfil)

/-! ## Claims about the pattern and the filter, continued -/

/-- C11, as stated, fails: `BUMP` is a spelling of `bump`, but the title
`BUMP lodash` does not match the pattern, so it has no package identity, and of
the two units `Bump lodash`, `BUMP lodash` of one repository none is returned. -/
theorem upper_case_bump_not_matched :
    "BUMP".data.map Char.toLower = "bump".data ∧
      FindStringSubmatch ("BUMP" ++ " " ++ "lodash") = [] ∧
      packageName? ("BUMP" ++ " " ++ "lodash") = none ∧
      packageName? ("Bump " ++ "lodash") = some "lodash" ∧
      (filterDuplicatePullRequests RangeOrder.stored upperCaseUnits).1 = [] := by
  refine ⟨by decide, by decide, by decide, by decide, by decide⟩

/-- C11, amended: matching is case-insensitive on the first letter of the
leading word only. For every non-empty name `s` over the ASCII letters, `@`, `/`
and `-`, the titles `"bump" ++ " " ++ s` and `"Bump" ++ " " ++ s` both parse and
yield the identity `s`, so two such units of one repository are returned as a
duplicate group, for every iteration order; a four-letter leading word whose
last three letters are not exactly `ump` (as in `BUMP`, `bUmP`) followed by a
space and `s` does not parse. -/
theorem bump_first_letter_either_case (s : String) (hne : s ≠ "")
    (hs : ∀ c ∈ s.data,
      ('a' ≤ c ∧ c ≤ 'z') ∨ ('A' ≤ c ∧ c ≤ 'Z') ∨ c = '@' ∨ c = '/' ∨ c = '-') :
    FindStringSubmatch ("bump" ++ " " ++ s) = ["bump" ++ " " ++ s, s] ∧
      packageName? ("bump" ++ " " ++ s) = some s ∧
      packageName? ("bump" ++ " " ++ s) = packageName? ("Bump " ++ s) ∧
      (∀ (range : RangeOrder) (repository n₁ n₂ : String),
        (filterDuplicatePullRequests range
          [unit repository n₁ ("Bump" ++ " " ++ s), unit repository n₂ ("bump" ++ " " ++ s)]).1.Perm
          [unit repository n₁ ("Bump" ++ " " ++ s), unit repository n₂ ("bump" ++ " " ++ s)]) ∧
      (∀ c0 c1 c2 c3 : Char, ¬ (c1 = 'u' ∧ c2 = 'm' ∧ c3 = 'p') →
        FindStringSubmatch (String.mk [c0, c1, c2, c3] ++ " " ++ s) = []) := by
  obtain ⟨cs⟩ := s
  have hcs : cs ≠ [] := by
    intro h
    exact hne (by rw [h])
  have hall : ∀ x ∈ cs, isNameChar x = true := by
    intro x hx
    unfold isNameChar
    exact decide_eq_true (hs x hx)
  have hspace : ' ' ∉ cs := by
    intro h
    have := hall ' ' h
    revert this
    decide
  have hlow : FindStringSubmatch ("bump" ++ " " ++ String.mk cs) =
      ["bump" ++ " " ++ String.mk cs, String.mk cs] :=
    findSubmatch_lower cs cs (List.takeWhile_eq_self_iff.mpr hall) hcs
  have hup : FindStringSubmatch ("Bump" ++ " " ++ String.mk cs) =
      ["Bump" ++ " " ++ String.mk cs, String.mk cs] :=
    findSubmatch_bump cs cs (List.takeWhile_eq_self_iff.mpr hall) hcs
  have hnlow := packageName?_of_submatch _ _ _ hlow
  have hnup := packageName?_of_submatch _ _ _ hup
  refine ⟨hlow, hnlow, ?_, ?_, ?_⟩
  · rw [hnlow]
    exact hnup.symm
  · intro range repository n₁ n₂
    exact filter_pair_of_shared range _ _ (String.mk cs) hnup hnlow rfl
  · intro c0 c1 c2 c3 hump
    exact findSubmatch_other_spelling c0 c1 c2 c3 cs hump hspace

/-- Witness of C11 amended: the name `lodash`. -/
theorem bump_first_letter_either_case_witness :
    packageName? ("bump" ++ " " ++ "lodash") = some "lodash" ∧
      FindStringSubmatch (String.mk ['b', 'U', 'm', 'P'] ++ " " ++ "lodash") = [] :=
  ⟨(bump_first_letter_either_case "lodash" (by decide) (by decide)).2.1,
    (bump_first_letter_either_case "lodash" (by decide) (by decide)).2.2.2.2 'b' 'U' 'm' 'P'
      (by decide)⟩

/-! ## Theorems: non-matching titles, blocks of the output, operation keys -/

theorem packageKey_eq_none_iff (u : pullRequest) :
    packageKey u = none ↔ ¬ 1 < (FindStringSubmatch u.title).length := by
  unfold packageKey packageName?
  generalize FindStringSubmatch u.title = info
  rcases info with _ | ⟨a, _ | ⟨b, rest⟩⟩ <;> simp

theorem matches_of_isDuplicate (prs : List pullRequest) (u : pullRequest)
    (h : isDuplicate prs u = true) : 1 < (FindStringSubmatch u.title).length := by
  by_contra hlen
  have hk := (packageKey_eq_none_iff u).mpr hlen
  unfold isDuplicate at h
  rw [hk] at h
  cases h

theorem group_filter_matching (prs : List pullRequest) (k : String) :
    (prs.filter (fun u => decide (1 < (FindStringSubmatch u.title).length))).filter
        (fun p => decide (packageKey p = some k)) =
      prs.filter (fun p => decide (packageKey p = some k)) := by
  rw [List.filter_filter]
  apply List.filter_congr
  intro x _
  by_cases hx : packageKey x = some k
  · have hlen : 1 < (FindStringSubmatch x.title).length := by
      by_contra hlen
      rw [(packageKey_eq_none_iff x).mpr hlen] at hx
      cases hx
    simp [hx, hlen]
  · simp [hx]

theorem isDuplicate_filter_matching (prs : List pullRequest) (u : pullRequest) :
    isDuplicate (prs.filter (fun u => decide (1 < (FindStringSubmatch u.title).length))) u =
      isDuplicate prs u := by
  unfold isDuplicate
  cases packageKey u with
  | none => rfl
  | some k =>
    simp only []
    rw [group_filter_matching]

theorem duplicates_filter_matching (prs : List pullRequest) :
    (prs.filter (fun u => decide (1 < (FindStringSubmatch u.title).length))).filter
        (isDuplicate (prs.filter (fun u => decide (1 < (FindStringSubmatch u.title).length)))) =
      prs.filter (isDuplicate prs) := by
  rw [List.filter_filter]
  apply List.filter_congr
  intro x _
  rw [isDuplicate_filter_matching]
  cases hd : isDuplicate prs x with
  | false => rfl
  | true =>
    have := matches_of_isDuplicate prs x hd
    simp [this]

theorem repoString_data (repository number : String) :
    (repoString repository number).data = repository.data ++ '/' :: number.data := by
  unfold repoString
  rw [String.data_append, String.data_append]
  show repository.data ++ ['/'] ++ number.data = _
  simp

theorem split_at_last_slash (r₁ n₁ r₂ n₂ : List Char) (h₁ : '/' ∉ n₁) (h₂ : '/' ∉ n₂)
    (h : r₁ ++ '/' :: n₁ = r₂ ++ '/' :: n₂) : r₁ = r₂ ∧ n₁ = n₂ := by
  induction r₁ generalizing r₂ with
  | nil =>
    cases r₂ with
    | nil =>
      simp only [List.nil_append, List.cons.injEq, true_and] at h
      exact ⟨rfl, h⟩
    | cons c r₂ =>
      simp only [List.nil_append, List.cons_append, List.cons.injEq] at h
      exfalso
      apply h₁
      rw [h.2]
      simp
  | cons c r₁ ih =>
    cases r₂ with
    | nil =>
      simp only [List.nil_append, List.cons_append, List.cons.injEq] at h
      exfalso
      apply h₂
      rw [← h.2]
      simp
    | cons d r₂ =>
      simp only [List.cons_append, List.cons.injEq] at h
      obtain ⟨hr, hn⟩ := ih r₂ h.2
      exact ⟨by rw [h.1, hr], hn⟩

theorem repoString_inj (r₁ n₁ r₂ n₂ : String) (h₁ : '/' ∉ n₁.data) (h₂ : '/' ∉ n₂.data)
    (h : repoString r₁ n₁ = repoString r₂ n₂) : r₁ = r₂ ∧ n₁ = n₂ := by
  have hd := congrArg String.data h
  rw [repoString_data, repoString_data] at hd
  obtain ⟨hr, hn⟩ := split_at_last_slash _ _ _ _ h₁ h₂ hd
  exact ⟨String.ext hr, String.ext hn⟩

theorem key_of_mem_groups (prs : List pullRequest) (k : String)
    (E : List (Σ _ : String, List pullRequest))
    (hE : ∀ e ∈ E, e.2 = prs.filter (fun p => decide (packageKey p = some e.1)))
    (hk : k ∉ E.map (fun e => e.1)) :
    ∀ u ∈ (E.map (fun e => e.2)).flatten, packageKey u ≠ some k := by
  intro u hu hkey
  rw [List.mem_flatten] at hu
  obtain ⟨g, hg, hug⟩ := hu
  rw [List.mem_map] at hg
  obtain ⟨e, he, rfl⟩ := hg
  rw [hE e he, List.mem_filter] at hug
  have hku : packageKey u = some e.1 := of_decide_eq_true hug.2
  rw [hkey] at hku
  apply hk
  rw [List.mem_map]
  exact ⟨e, he, (Option.some.inj hku).symm⟩

/-- In a concatenation of groups with distinct keys, the units of one key form a
single block. -/
theorem block_of_groups (prs : List pullRequest) (k : String)
    (E : List (Σ _ : String, List pullRequest))
    (hE : ∀ e ∈ E, e.2 = prs.filter (fun p => decide (packageKey p = some e.1)))
    (hnd : (E.map (fun e => e.1)).Nodup) :
    ∃ pre post,
      (E.map (fun e => e.2)).flatten =
        pre ++ (if k ∈ E.map (fun e => e.1) then
          prs.filter (fun p => decide (packageKey p = some k)) else []) ++ post ∧
      (∀ u ∈ pre, packageKey u ≠ some k) ∧ (∀ u ∈ post, packageKey u ≠ some k) := by
  by_cases hk : k ∈ E.map (fun e => e.1)
  · rw [if_pos hk]
    rw [List.mem_map] at hk
    obtain ⟨e, he, rfl⟩ := hk
    obtain ⟨E₁, E₂, rfl⟩ := List.append_of_mem he
    have hnd2 : (e.1 :: (E₁.map (fun e => e.1) ++ E₂.map (fun e => e.1))).Nodup := by
      rw [List.map_append, List.map_cons] at hnd
      exact List.nodup_middle.mp hnd
    have hnot := (List.nodup_cons.mp hnd2).1
    rw [List.mem_append, not_or] at hnot
    refine ⟨(E₁.map (fun e => e.2)).flatten, (E₂.map (fun e => e.2)).flatten, ?_, ?_, ?_⟩
    · rw [List.map_append, List.map_cons, List.flatten_append, List.flatten_cons,
        hE e (List.mem_append_right _ (List.mem_cons_self _ _)), List.append_assoc]
    · exact key_of_mem_groups prs e.1 E₁
        (fun e' he' => hE e' (List.mem_append_left _ he')) hnot.1
    · exact key_of_mem_groups prs e.1 E₂
        (fun e' he' => hE e' (List.mem_append_right _ (List.mem_cons_of_mem _ he'))) hnot.2
  · rw [if_neg hk]
    exact ⟨(E.map (fun e => e.2)).flatten, [], by simp,
      key_of_mem_groups prs k E hE hk, by simp⟩

/-- C12: `filterDuplicatePullRequests` never fails. For every input and
iteration order the returned error is `nil`; every returned unit has a title
that matches the pattern, so no unit of the input with a non-matching title is
in the output; and the output equals, up to order, the output (for any
iteration order) on the input with the non-matching units deleted. -/
theorem filterDuplicates_never_fails (range range' : RangeOrder) (prs : List pullRequest) :
    (filterDuplicatePullRequests range prs).2 = none ∧
      (∀ u ∈ (filterDuplicatePullRequests range prs).1,
        1 < (FindStringSubmatch u.title).length) ∧
      (∀ u ∈ prs, ¬ 1 < (FindStringSubmatch u.title).length →
        u ∉ (filterDuplicatePullRequests range prs).1) ∧
      (filterDuplicatePullRequests range prs).1.Perm
        (filterDuplicatePullRequests range'
          (prs.filter (fun u => decide (1 < (FindStringSubmatch u.title).length)))).1 := by
  have hperm := filterDuplicates_perm range prs
  have hmatch : ∀ u ∈ (filterDuplicatePullRequests range prs).1,
      1 < (FindStringSubmatch u.title).length := by
    intro u hu
    have hu' := (List.mem_filter.mp (hperm.subset hu)).2
    exact matches_of_isDuplicate prs u hu'
  refine ⟨rfl, hmatch, ?_, ?_⟩
  · intro u _ hno hu
    exact hno (hmatch u hu)
  · have hperm' := filterDuplicates_perm range'
      (prs.filter (fun u => decide (1 < (FindStringSubmatch u.title).length)))
    rw [duplicates_filter_matching] at hperm'
    exact hperm.trans hperm'.symm

/-- Witness of C12: `lodashExample` with a unit of non-matching title added. -/
theorem filterDuplicates_never_fails_witness :
    unit "A" "9" "Update README" ∉
      (filterDuplicatePullRequests RangeOrder.stored
        (unit "A" "9" "Update README" :: lodashExample)).1 :=
  (filterDuplicates_never_fails RangeOrder.stored RangeOrder.reversed
    (unit "A" "9" "Update README" :: lodashExample)).2.2.1 (unit "A" "9" "Update README")
    (List.mem_cons_self _ _) (by decide)

/-- C19: for every input, every iteration order of the map and every grouping
key `k`, the output is `pre ++ block ++ post` where no unit of `pre` or `post`
has the key `k` and `block` is the list of all input units with key `k`, in
input order, when there are at least two of them, and empty otherwise: the
units of one group are contiguous and keep their input order. -/
theorem group_members_contiguous_in_input_order (range : RangeOrder)
    (prs : List pullRequest) (k : String) :
    ∃ pre post,
      (filterDuplicatePullRequests range prs).1 =
        pre ++ (if 1 < (prs.filter (fun p => decide (packageKey p = some k))).length then
          prs.filter (fun p => decide (packageKey p = some k)) else []) ++ post ∧
      (∀ u ∈ pre, packageKey u ≠ some k) ∧ (∀ u ∈ post, packageKey u ≠ some k) ∧
      (prs.filter (fun p => decide (packageKey p = some k))).Sublist prs ∧
      (∀ u ∈ prs.filter (fun p => decide (packageKey p = some k)), packageKey u = some k) := by
  have hrp := range.perm (prs.foldl addToPackageMap (∅ : PackageMap)).entries
  have hE : ∀ e ∈ (range.enum (prs.foldl addToPackageMap (∅ : PackageMap)).entries).filter
      (fun e => decide (1 < e.2.length)),
      e.2 = prs.filter (fun p => decide (packageKey p = some e.1)) := by
    intro e he
    exact entry_packageMap prs e (hrp.subset (List.mem_filter.mp he).1)
  have hnd : (((range.enum (prs.foldl addToPackageMap (∅ : PackageMap)).entries).filter
      (fun e => decide (1 < e.2.length))).map (fun e => e.1)).Nodup := by
    have hsub := (List.filter_sublist (p := fun e : (Σ _ : String, List pullRequest) =>
      decide (1 < e.2.length))
      (range.enum (prs.foldl addToPackageMap (∅ : PackageMap)).entries)).map (fun e => e.1)
    have hnd0 : ((range.enum (prs.foldl addToPackageMap (∅ : PackageMap)).entries).map
        (fun e => e.1)).Nodup := by
      have hk0 : ((prs.foldl addToPackageMap (∅ : PackageMap)).entries.map
          (fun e => e.1)).Nodup := (prs.foldl addToPackageMap (∅ : PackageMap)).keys_nodup
      exact ((hrp.map _).nodup_iff).mpr hk0
    exact List.Nodup.sublist hsub hnd0
  have hmem : k ∈ ((range.enum (prs.foldl addToPackageMap (∅ : PackageMap)).entries).filter
      (fun e => decide (1 < e.2.length))).map (fun e => e.1) ↔
      1 < (prs.filter (fun p => decide (packageKey p = some k))).length := by
    rw [← mem_keys_big prs k]
    exact ((hrp.filter _).map _).mem_iff
  obtain ⟨pre, post, hout, hpre, hpost⟩ := block_of_groups prs k _ hE hnd
  refine ⟨pre, post, ?_, hpre, hpost, List.filter_sublist prs, ?_⟩
  · unfold filterDuplicatePullRequests
    simp only []
    rw [foldl_collect, List.nil_append, hout]
    by_cases hbig : 1 < (prs.filter (fun p => decide (packageKey p = some k))).length
    · rw [if_pos hbig, if_pos (hmem.mpr hbig)]
    · rw [if_neg hbig, if_neg (fun h => hbig (hmem.mp h))]
  · intro u hu
    exact of_decide_eq_true (List.mem_filter.mp hu).2

/-- C20: when neither number contains `/`, equal operation keys
`repository + "/" + number` come from equal repositories and equal numbers, so
`markInProgress` and `markDone` for one unit leave the counter of every other
unit untouched; without the condition the key is not injective: `("a/b", "1")`
and `("a", "b/1")` both give `a/b/1`. -/
theorem operation_key_separates_units (r₁ n₁ r₂ n₂ : String)
    (h₁ : '/' ∉ n₁.data) (h₂ : '/' ∉ n₂.data) :
    (repoString r₁ n₁ = repoString r₂ n₂ → r₁ = r₂ ∧ n₁ = n₂) ∧
      (¬ (r₁ = r₂ ∧ n₁ = n₂) → ∀ m : ListView,
        (m.markInProgress r₁ n₁).inProgressOperations.lookup (repoString r₂ n₂) =
            m.inProgressOperations.lookup (repoString r₂ n₂) ∧
          (m.markDone r₁ n₁).inProgressOperations.lookup (repoString r₂ n₂) =
            m.inProgressOperations.lookup (repoString r₂ n₂)) ∧
      (repoString "a/b" "1" = "a/b/1" ∧ repoString "a" "b/1" = "a/b/1" ∧
        ("a/b", "1") ≠ ("a", "b/1")) := by
  refine ⟨repoString_inj r₁ n₁ r₂ n₂ h₁ h₂, ?_, by decide, by decide, by decide⟩
  intro hne m
  have hk : repoString r₂ n₂ ≠ repoString r₁ n₁ :=
    fun h => hne (repoString_inj r₁ n₁ r₂ n₂ h₁ h₂ h.symm)
  constructor
  · rw [lookup_markInProgress, if_neg hk]
  · rw [lookup_markDone, if_neg hk]

/-- Witness of C20: the units `acme/app` number `7` and `acme/app` number `8`. -/
theorem operation_key_separates_units_witness :
    (busyView.markInProgress "acme/app" "8").inProgressOperations.lookup
        (repoString "acme/app" "7") =
      busyView.inProgressOperations.lookup (repoString "acme/app" "7") :=
  ((operation_key_separates_units "acme/app" "8" "acme/app" "7" (by decide) (by decide)).2.1
    (by decide) busyView).1

/-! ## Theorems: more on the reducer -/

theorem reduce_key_none (m : ListView) (key : String)
    (hsel : m.listModel.SelectedItem = none) :
    m.reduce (Msg.KeyMsg key) = (m, []) := by
  simp only [ListView.reduce, ListView.mergeCase, hsel, ite_self]

theorem selectedItem_of_empty (l : ListModel) (h : l.items = []) : l.SelectedItem = none := by
  simp [ListModel.SelectedItem, h]

theorem reduce_success (m : ListView) (pr : pullRequest) (msg : Msg)
    (hmsg : msg ∈ successCompletions pr) :
    (m.reduce msg).1.inProgressOperations =
        (m.markDone pr.repository pr.number).inProgressOperations ∧
      (m.reduce msg).1.listModel.showSpinner = false ∧
      (m.reduce msg).1.listModel.items = m.listModel.items := by
  simp only [successCompletions, List.mem_cons, List.mem_singleton, List.not_mem_nil,
    or_false] at hmsg
  have hops : ∀ v : ListView, v.inProgressOperations = m.inProgressOperations →
      (v.markDone pr.repository pr.number).inProgressOperations =
        (m.markDone pr.repository pr.number).inProgressOperations := by
    intro v hv
    simp only [ListView.markDone, hv]
    split_ifs
    · exact hv
    · rfl
    · rfl
  rcases hmsg with rfl | rfl | rfl <;>
    exact ⟨hops _ rfl, by
      simp [ListView.reduce, ListModel.NewStatusMessage, markDone_listModel,
        ListModel.StopSpinner], by
      simp [ListView.reduce, ListModel.NewStatusMessage, markDone_listModel,
        ListModel.StopSpinner]⟩

theorem mergeCase_items (m : ListView) (method : MergeMethod) :
    (m.mergeCase method).1.listModel.items =
      if m.listModel.SelectedItem.isSome then m.listModel.items.eraseIdx m.listModel.index
      else m.listModel.items := by
  unfold ListView.mergeCase
  cases h : m.listModel.SelectedItem <;>
    simp [markInProgress_listModel, ListModel.RemoveItem, ListModel.StartSpinner,
      ListModel.Index]


theorem reduce_closeKey (m : ListView) (u : pullRequest) (hkm : m.keyMap = newKeyMap)
    (hsel : m.listModel.SelectedItem = some u) :
    m.reduce (Msg.KeyMsg "C") =
      ({ m with listModel := m.listModel.RemoveItem m.listModel.Index },
        [Cmd.closePRCmd u]) := by
  simp [ListView.reduce, hkm, newKeyMap, Matches, hsel]

theorem reduce_restartKey (m : ListView) (u : pullRequest) (key : String)
    (cmd : pullRequest → Cmd) (hkm : m.keyMap = newKeyMap)
    (hsel : m.listModel.SelectedItem = some u) (hkey : (key, cmd) ∈ restartKeys) :
    m.reduce (Msg.KeyMsg key) =
      ({ m.markInProgress u.repository u.number with
          listModel := { m.listModel with showSpinner := true } },
        [Cmd.startSpinner, cmd u]) := by
  simp only [restartKeys, List.mem_cons, Prod.mk.injEq, List.mem_singleton, List.not_mem_nil,
    or_false] at hkey
  rcases hkey with ⟨rfl, rfl⟩ | ⟨rfl, rfl⟩ <;>
    simp [ListView.reduce, hkm, newKeyMap, Matches, hsel, markInProgress_listModel,
      ListModel.StartSpinner]

theorem ite_items_sublist (l : List pullRequest) (c : Prop) [Decidable c]
    (a b : ListView × List Cmd) (ha : a.1.listModel.items.Sublist l)
    (hb : b.1.listModel.items.Sublist l) :
    (if c then a else b).1.listModel.items.Sublist l := by
  split_ifs
  · exact ha
  · exact hb

theorem reduce_items_sublist (m : ListView) (msg : Msg) :
    (m.reduce msg).1.listModel.items.Sublist m.listModel.items := by
  have herase := List.eraseIdx_sublist m.listModel.items m.listModel.index
  have hmerge : ∀ method, (m.mergeCase method).1.listModel.items.Sublist m.listModel.items := by
    intro method
    rw [mergeCase_items]
    split_ifs
    · exact herase
    · exact List.Sublist.refl _
  cases msg with
  | KeyMsg key =>
    cases hsel : m.listModel.SelectedItem with
    | none =>
      rw [reduce_key_none m key hsel]
    | some u =>
      simp only [ListView.reduce, hsel]
      repeat' apply ite_items_sublist
      all_goals first
        | exact hmerge _
        | exact List.Sublist.refl _
        | exact herase
  | _ =>
    simp [ListView.reduce, ListModel.NewStatusMessage, markDone_listModel,
      ListModel.StopSpinner, ListModel.SetSize, listViewPadding]

theorem ite_items_eq (l : List pullRequest) (c : Prop) [Decidable c]
    (a b : ListView × List Cmd) (ha : a.1.listModel.items = l)
    (hb : b.1.listModel.items = l) :
    (if c then a else b).1.listModel.items = l := by
  split_ifs
  · exact ha
  · exact hb

theorem reduce_items_of_not_key (m : ListView) (msg : Msg)
    (h : ∀ key, msg ≠ Msg.KeyMsg key) :
    (m.reduce msg).1.listModel.items = m.listModel.items := by
  cases msg with
  | KeyMsg key => exact absurd rfl (h key)
  | _ =>
    simp [ListView.reduce, ListModel.NewStatusMessage, markDone_listModel,
      ListModel.StopSpinner, ListModel.SetSize, listViewPadding]

theorem reduce_items_of_other_key (m : ListView) (key : String) (hkm : m.keyMap = newKeyMap)
    (hkey : key ∉ removalKeys) :
    (m.reduce (Msg.KeyMsg key)).1.listModel.items = m.listModel.items := by
  simp only [removalKeys, List.mem_cons, List.mem_singleton, List.not_mem_nil, or_false,
    not_or] at hkey
  obtain ⟨h1, h2, h3, h4, h5⟩ := hkey
  cases hsel : m.listModel.SelectedItem with
  | none => rw [reduce_key_none m key hsel]
  | some u =>
    have e1 : Matches key newKeyMap.mergeRebase = false := by simp [Matches, newKeyMap, h1]
    have e2 : Matches key newKeyMap.mergeDefault = false := by simp [Matches, newKeyMap, h2]
    have e3 : Matches key newKeyMap.mergeSquash = false := by simp [Matches, newKeyMap, h3]
    have e4 : Matches key newKeyMap.mergeDependabot = false := by
      simp [Matches, newKeyMap, h4]
    have e5 : Matches key newKeyMap.close = false := by simp [Matches, newKeyMap, h5]
    simp only [ListView.reduce, hkm, hsel, e1, e2, e3, e4, e5, Bool.false_eq_true, if_false]
    repeat' apply ite_items_eq
    all_goals rfl

theorem reduce_items_of_removal_key (m : ListView) (u : pullRequest) (key : String)
    (hkm : m.keyMap = newKeyMap) (hsel : m.listModel.SelectedItem = some u)
    (hkey : key ∈ removalKeys) :
    (m.reduce (Msg.KeyMsg key)).1.listModel.items =
      m.listModel.items.eraseIdx m.listModel.index := by
  simp only [removalKeys, List.mem_cons, List.mem_singleton, List.not_mem_nil,
    or_false] at hkey
  rcases hkey with rfl | rfl | rfl | rfl | rfl
  · rw [reduce_mergeKey m u "enter" MergeMethod.MethodRebase hkm hsel (by decide)]
  · rw [reduce_mergeKey m u "ctrl+m" MergeMethod.MethodMerge hkm hsel (by decide)]
  · rw [reduce_mergeKey m u "M" MergeMethod.MethodSquash hkm hsel (by decide)]
  · rw [reduce_mergeKey m u "alt+m" MergeMethod.MethodDependabot hkm hsel (by decide)]
  · rw [reduce_closeKey m u hkm hsel]
    rfl

theorem keepsSpinner_inert : ListUpdate.inert.KeepsSpinner := fun _ _ => rfl

theorem Update_spinner (lib : ListUpdate) (hlib : lib.KeepsSpinner) (m : ListView)
    (msg : Msg) :
    (m.Update lib msg).1.listModel.showSpinner = (m.reduce msg).1.listModel.showSpinner := by
  simp only [ListView.Update]
  exact hlib msg _

/-! ## Claims about the reducer, continued -/

/-- C13, as stated, fails: in `twoMergesView` the spinner runs and two merges
are in flight; after the success completion of the first one the tracker still
holds the entry of the second (`hasWorkInProgress` is true), yet the spinner
has been stopped. -/
theorem spinner_stopped_while_work_remains :
    twoMergesView.listModel.showSpinner = true ∧
      (twoMergesView.Update ListUpdate.inert
        (Msg.pullRequestMerged samplePR)).1.inProgressOperations.lookup "acme/app/8" = some 1 ∧
      (twoMergesView.Update ListUpdate.inert
        (Msg.pullRequestMerged samplePR)).1.hasWorkInProgress = true ∧
      (twoMergesView.Update ListUpdate.inert
        (Msg.pullRequestMerged samplePR)).1.listModel.showSpinner = false := by
  refine ⟨by decide, by decide, by decide, by decide⟩

/-- C13, amended: on a success completion of a merge, rebase or recreate,
`Update` calls `markDone` for the unit's key and stops the progress indicator
unconditionally: after the step the tracker is the one `markDone` gives and the
indicator is off, whether or not an entry remains (`hasWorkInProgress` is not
consulted). -/
theorem success_completion_stops_spinner (lib : ListUpdate) (m : ListView)
    (pr : pullRequest) (msg : Msg) (hlib : lib.KeepsSpinner)
    (hmsg : msg ∈ successCompletions pr) :
    (m.Update lib msg).1.inProgressOperations =
        (m.markDone pr.repository pr.number).inProgressOperations ∧
      (m.reduce msg).1.listModel.showSpinner = false ∧
      (m.Update lib msg).1.listModel.showSpinner = false := by
  obtain ⟨hops, hspin, _⟩ := reduce_success m pr msg hmsg
  refine ⟨?_, hspin, ?_⟩
  · rw [Update_tracker, hops]
  · rw [Update_spinner lib hlib, hspin]

/-- Witness of C13 amended: a rebase completion for `samplePR` in
`twoMergesView`; the entry of `otherPR` remains and the spinner is off. -/
theorem success_completion_stops_spinner_witness :
    (twoMergesView.Update ListUpdate.inert
        (Msg.pullRequestRebased samplePR)).1.listModel.showSpinner = false ∧
      (twoMergesView.Update ListUpdate.inert
        (Msg.pullRequestRebased samplePR)).1.inProgressOperations =
        (twoMergesView.markDone "acme/app" "7").inProgressOperations :=
  ⟨(success_completion_stops_spinner ListUpdate.inert twoMergesView samplePR
      (Msg.pullRequestRebased samplePR) keepsSpinner_inert (by decide)).2.2,
    (success_completion_stops_spinner ListUpdate.inert twoMergesView samplePR
      (Msg.pullRequestRebased samplePR) keepsSpinner_inert (by decide)).1⟩

/-- C14: with a selected unit `u`, the close key `C` makes `Update` remove
exactly the selected item from the visible list in that step, batch one
`closePRCmd u` (and the widget's own command, no other action command), and
leave the tracker map exactly as it was. -/
theorem closeKey_step (lib : ListUpdate) (m : ListView) (u : pullRequest)
    (hlib : lib.KeepsItems) (hkm : m.keyMap = newKeyMap)
    (hsel : m.listModel.SelectedItem = some u) :
    (m.listModel.items =
        m.listModel.items.take m.listModel.index ++
          u :: m.listModel.items.drop (m.listModel.index + 1)) ∧
      ((m.Update lib (Msg.KeyMsg "C")).1.listModel.items =
        m.listModel.items.take m.listModel.index ++
          m.listModel.items.drop (m.listModel.index + 1)) ∧
      (∃ c, (m.Update lib (Msg.KeyMsg "C")).2 = [Cmd.closePRCmd u, Cmd.fromList c]) ∧
      ((m.Update lib (Msg.KeyMsg "C")).2.filter Cmd.isAction = [Cmd.closePRCmd u]) ∧
      (m.Update lib (Msg.KeyMsg "C")).1.inProgressOperations = m.inProgressOperations := by
  obtain ⟨hsplit, herase⟩ := selected_split m.listModel u hsel
  refine ⟨hsplit, ?_, ?_, ?_, ?_⟩
  · rw [Update_items lib hlib, reduce_closeKey m u hkm hsel]
    exact herase
  · refine ⟨(lib (Msg.KeyMsg "C") (m.reduce (Msg.KeyMsg "C")).1.listModel).2, ?_⟩
    rw [Update_cmds, reduce_closeKey m u hkm hsel]
    rfl
  · rw [Update_cmds, reduce_closeKey m u hkm hsel]
    rfl
  · rw [Update_tracker, reduce_closeKey m u hkm hsel]

/-- Witness of C14: the close key on `busyView`, whose tracker holds
`acme/app/7`. -/
theorem closeKey_step_witness :
    (busyView.Update ListUpdate.toTop (Msg.KeyMsg "C")).1.listModel.items = [otherPR] ∧
      (busyView.Update ListUpdate.toTop (Msg.KeyMsg "C")).2.filter Cmd.isAction =
        [Cmd.closePRCmd samplePR] ∧
      (busyView.Update ListUpdate.toTop (Msg.KeyMsg "C")).1.inProgressOperations =
        busyView.inProgressOperations :=
  ⟨(closeKey_step ListUpdate.toTop busyView samplePR keepsItems_toTop rfl rfl).2.1,
    (closeKey_step ListUpdate.toTop busyView samplePR keepsItems_toTop rfl rfl).2.2.2.1,
    (closeKey_step ListUpdate.toTop busyView samplePR keepsItems_toTop rfl rfl).2.2.2.2⟩

/-- C15, as stated, fails: in `saturatedView` the key of the selected unit has
count `MaxInt`; after the rebase key `r`, and likewise after the recreate key
`R`, its count is `MinInt`, not one more. -/
theorem restartKey_wraps_at_MaxInt :
    saturatedView.listModel.SelectedItem = some samplePR ∧
      saturatedView.inProgressOperations.lookup "acme/app/7" = some MaxInt ∧
      (saturatedView.Update ListUpdate.inert (Msg.KeyMsg "r")).1.inProgressOperations.lookup
        "acme/app/7" = some MinInt ∧
      (saturatedView.Update ListUpdate.inert (Msg.KeyMsg "R")).1.inProgressOperations.lookup
        "acme/app/7" = some MinInt ∧
      MinInt ≠ MaxInt + 1 := by
  refine ⟨by decide, by decide, by decide, by decide, by decide⟩

/-- C15, amended: with a selected unit `u` whose key has a count below `MaxInt`
(0 when absent), the rebase key `r` and the recreate key `R` leave the visible
list as it is, raise the tracker count of `u.repository/u.number` by one
without touching another key, and batch the spinner command, one Commander
command (`rebasePullRequest u` resp. `recreatePullRequest u`) and the widget's
own command. -/
theorem restartKey_step (lib : ListUpdate) (m : ListView) (u : pullRequest)
    (key : String) (cmd : pullRequest → Cmd)
    (hlib : lib.KeepsItems) (hkm : m.keyMap = newKeyMap)
    (hsel : m.listModel.SelectedItem = some u) (hkey : (key, cmd) ∈ restartKeys)
    (hroom : (m.inProgressOperations.lookup (u.repository ++ "/" ++ u.number)).getD 0 <
      MaxInt) :
    ((m.Update lib (Msg.KeyMsg key)).1.listModel.items = m.listModel.items) ∧
      ((m.Update lib (Msg.KeyMsg key)).1.listModel.items.get? m.listModel.index = some u) ∧
      ((m.Update lib (Msg.KeyMsg key)).1.inProgressOperations.lookup
          (u.repository ++ "/" ++ u.number) =
        some ((m.inProgressOperations.lookup (u.repository ++ "/" ++ u.number)).getD 0 + 1)) ∧
      (∀ k, k ≠ u.repository ++ "/" ++ u.number →
        (m.Update lib (Msg.KeyMsg key)).1.inProgressOperations.lookup k =
          m.inProgressOperations.lookup k) ∧
      (∃ c, (m.Update lib (Msg.KeyMsg key)).2 = [Cmd.startSpinner, cmd u, Cmd.fromList c]) ∧
      ((m.Update lib (Msg.KeyMsg key)).2.filter Cmd.isAction = [cmd u]) ∧
      (cmd u = Cmd.rebasePullRequest u ∨ cmd u = Cmd.recreatePullRequest u) := by
  have hitems : (m.Update lib (Msg.KeyMsg key)).1.listModel.items = m.listModel.items := by
    rw [Update_items lib hlib, reduce_restartKey m u key cmd hkm hsel hkey]
  have hcmd : cmd u = Cmd.rebasePullRequest u ∨ cmd u = Cmd.recreatePullRequest u := by
    simp only [restartKeys, List.mem_cons, Prod.mk.injEq, List.mem_singleton,
      List.not_mem_nil, or_false] at hkey
    rcases hkey with ⟨_, rfl⟩ | ⟨_, rfl⟩
    · exact Or.inl rfl
    · exact Or.inr rfl
  refine ⟨hitems, ?_, ?_, ?_, ?_, ?_, hcmd⟩
  · rw [hitems]
    exact hsel
  · rw [Update_tracker, reduce_restartKey m u key cmd hkm hsel hkey]
    exact lookup_markInProgress_of_room m u.repository u.number hroom
  · intro k hk
    rw [Update_tracker, reduce_restartKey m u key cmd hkm hsel hkey]
    simp only []
    rw [lookup_markInProgress]
    exact if_neg hk
  · refine ⟨(lib (Msg.KeyMsg key) (m.reduce (Msg.KeyMsg key)).1.listModel).2, ?_⟩
    rw [Update_cmds, reduce_restartKey m u key cmd hkm hsel hkey]
    rfl
  · rw [Update_cmds, reduce_restartKey m u key cmd hkm hsel hkey]
    rcases hcmd with h | h <;> rw [h] <;> rfl

/-- Witness of C15 amended: the recreate key `R` on `busyView`. -/
theorem restartKey_step_witness :
    (busyView.Update ListUpdate.inert (Msg.KeyMsg "R")).1.listModel.items =
        [samplePR, otherPR] ∧
      (busyView.Update ListUpdate.inert (Msg.KeyMsg "R")).1.inProgressOperations.lookup
        "acme/app/7" = some 2 ∧
      (busyView.Update ListUpdate.inert (Msg.KeyMsg "R")).2.filter Cmd.isAction =
        [Cmd.recreatePullRequest samplePR] :=
  ⟨(restartKey_step ListUpdate.inert busyView samplePR "R" Cmd.recreatePullRequest
      keepsItems_inert rfl rfl (by simp [restartKeys]) (by decide)).1,
    (restartKey_step ListUpdate.inert busyView samplePR "R" Cmd.recreatePullRequest
      keepsItems_inert rfl rfl (by simp [restartKeys]) (by decide)).2.2.1.trans (by decide),
    (restartKey_step ListUpdate.inert busyView samplePR "R" Cmd.recreatePullRequest
      keepsItems_inert rfl rfl (by simp [restartKeys]) (by decide)).2.2.2.2.2.1⟩

/-- C16: units are never re-added. For every view and every message, the
visible list after the controller's `switch`, and after the whole `Update`, is
a sub-sequence of the list before; it is unchanged unless the message is one of
the four merge keys or the close key with a unit selected, and in that case
exactly the selected item is removed. -/
theorem visible_list_never_grows (lib : ListUpdate) (m : ListView) (msg : Msg)
    (hlib : lib.KeepsItems) (hkm : m.keyMap = newKeyMap) :
    (m.reduce msg).1.listModel.items.Sublist m.listModel.items ∧
      (m.Update lib msg).1.listModel.items.Sublist m.listModel.items ∧
      ((∀ key, msg = Msg.KeyMsg key →
          key ∉ removalKeys ∨ m.listModel.SelectedItem = none) →
        (m.Update lib msg).1.listModel.items = m.listModel.items) ∧
      (∀ key u, msg = Msg.KeyMsg key → key ∈ removalKeys →
        m.listModel.SelectedItem = some u →
        m.listModel.items =
            m.listModel.items.take m.listModel.index ++
              u :: m.listModel.items.drop (m.listModel.index + 1) ∧
          (m.Update lib msg).1.listModel.items =
            m.listModel.items.take m.listModel.index ++
              m.listModel.items.drop (m.listModel.index + 1)) := by
  have hsub := reduce_items_sublist m msg
  refine ⟨hsub, ?_, ?_, ?_⟩
  · rw [Update_items lib hlib]
    exact hsub
  · intro h
    rw [Update_items lib hlib]
    cases msg with
    | KeyMsg key =>
      rcases h key rfl with hk | hnone
      · exact reduce_items_of_other_key m key hkm hk
      · rw [reduce_key_none m key hnone]
    | errorMessage err => exact reduce_items_of_not_key m _ (fun _ hc => by cases hc)
    | pullRequestMerged pr => exact reduce_items_of_not_key m _ (fun _ hc => by cases hc)
    | pullRequestRebased pr => exact reduce_items_of_not_key m _ (fun _ hc => by cases hc)
    | pullRequestRecreated pr => exact reduce_items_of_not_key m _ (fun _ hc => by cases hc)
    | pullRequestOpenedInBrowser pr =>
      exact reduce_items_of_not_key m _ (fun _ hc => by cases hc)
    | WindowSizeMsg w h => exact reduce_items_of_not_key m _ (fun _ hc => by cases hc)
    | other => exact reduce_items_of_not_key m _ (fun _ hc => by cases hc)
  · intro key u hmsg hkey hsel
    subst hmsg
    obtain ⟨hsplit, herase⟩ := selected_split m.listModel u hsel
    refine ⟨hsplit, ?_⟩
    rw [Update_items lib hlib, reduce_items_of_removal_key m u key hkm hsel hkey]
    exact herase

/-- Witness of C16: the browse key `o` leaves the list of `busyView` as it is,
the squash key `M` removes the selected `samplePR`. -/
theorem visible_list_never_grows_witness :
    (busyView.Update ListUpdate.inert (Msg.KeyMsg "o")).1.listModel.items =
        [samplePR, otherPR] ∧
      (busyView.Update ListUpdate.inert (Msg.KeyMsg "M")).1.listModel.items = [otherPR] :=
  ⟨(visible_list_never_grows ListUpdate.inert busyView (Msg.KeyMsg "o") keepsItems_inert
      rfl).2.2.1 (fun key hkey => Or.inl (by cases hkey; decide)),
    ((visible_list_never_grows ListUpdate.inert busyView (Msg.KeyMsg "M") keepsItems_inert
      rfl).2.2.2 "M" samplePR rfl (by decide) rfl).2⟩

/-- C18: in a view whose visible list is empty no item is selected, and for
every key (bound or not) the controller's `switch` returns the view unchanged
with no command: after `Update` the list is still empty, the tracker is
unchanged, the batch holds the widget's own command only, hence no Commander,
close, view or copy command, and the spinner is not started. -/
theorem key_without_selection_does_nothing (lib : ListUpdate) (m : ListView) (key : String)
    (hlib : lib.KeepsItems) (hempty : m.listModel.items = []) :
    m.listModel.SelectedItem = none ∧
      m.reduce (Msg.KeyMsg key) = (m, []) ∧
      (m.Update lib (Msg.KeyMsg key)).1.listModel.items = [] ∧
      (m.Update lib (Msg.KeyMsg key)).1.inProgressOperations = m.inProgressOperations ∧
      (∃ c, (m.Update lib (Msg.KeyMsg key)).2 = [Cmd.fromList c]) ∧
      (m.Update lib (Msg.KeyMsg key)).2.filter Cmd.isAction = [] ∧
      Cmd.startSpinner ∉ (m.Update lib (Msg.KeyMsg key)).2 := by
  have hsel := selectedItem_of_empty m.listModel hempty
  have hred := reduce_key_none m key hsel
  refine ⟨hsel, hred, ?_, ?_, ?_, ?_, ?_⟩
  · rw [Update_items lib hlib, hred]
    exact hempty
  · rw [Update_tracker, hred]
  · exact ⟨(lib (Msg.KeyMsg key) (m.reduce (Msg.KeyMsg key)).1.listModel).2, by
      rw [Update_cmds, hred]
      rfl⟩
  · rw [Update_cmds, hred]
    rfl
  · rw [Update_cmds, hred]
    simp

/-- Witness of C18: the merge key `enter` on the view of an empty list. -/
theorem key_without_selection_does_nothing_witness :
    (newListView []).reduce (Msg.KeyMsg "enter") = (newListView [], []) ∧
      ((newListView []).Update ListUpdate.inert (Msg.KeyMsg "enter")).2.filter Cmd.isAction =
        [] :=
  ⟨(key_without_selection_does_nothing ListUpdate.inert (newListView []) "enter"
      keepsItems_inert rfl).2.1,
    (key_without_selection_does_nothing ListUpdate.inert (newListView []) "enter"
      keepsItems_inert rfl).2.2.2.2.2.1⟩

/-! ## Claims about the start of the program -/

/-- C17, as stated, fails: with the duplicates-only flag set, the list handed
on for `staleSecond` is the filter's output, the unit updated at 200 before the
unit updated at 100, which is not in non-decreasing order of `updatedAt`. -/
theorem duplicates_only_list_not_sorted :
    initialPullRequests RangeOrder.stored SliceSort.insertion true staleSecond =
        Except.ok [⟨"A", "1", "Bump foo", "", 200⟩, ⟨"A", "2", "Bump foo", "", 100⟩] ∧
      ¬ List.Pairwise (fun a b : pullRequest => a.updatedAt ≤ b.updatedAt)
        [⟨"A", "1", "Bump foo", "", 200⟩, ⟨"A", "2", "Bump foo", "", 100⟩] := by
  refine ⟨?_, by decide⟩
  have hout : (filterDuplicatePullRequests RangeOrder.stored staleSecond) =
      ([⟨"A", "1", "Bump foo", "", 200⟩, ⟨"A", "2", "Bump foo", "", 100⟩], none) := by
    decide
  simp only [initialPullRequests, if_true, hout]

/-- C17, amended: the sort runs only when the duplicates-only flag is off.
With the flag off the list handed on (the initial visible list) is a
permutation of the fetched units in non-decreasing order of `updatedAt`; with
the flag on it is the output of `filterDuplicatePullRequests`, a permutation of
the units that survive the filter, in the order the filter emits them. -/
theorem initial_list_sorted_unless_duplicates_only (range : RangeOrder) (sorter : SliceSort)
    (pullRequests : List pullRequest) :
    (∃ l, initialPullRequests range sorter false pullRequests = Except.ok l ∧
        (newListView l).listModel.items = l ∧
        l.Perm pullRequests ∧
        l.Pairwise (fun a b => a.updatedAt ≤ b.updatedAt)) ∧
      (initialPullRequests range sorter true pullRequests =
          Except.ok (filterDuplicatePullRequests range pullRequests).1 ∧
        (filterDuplicatePullRequests range pullRequests).1.Perm
          (pullRequests.filter (isDuplicate pullRequests))) := by
  refine ⟨⟨sorter.sort pullRequests, rfl, rfl, sorter.perm pullRequests, ?_⟩, rfl,
    filterDuplicates_perm range pullRequests⟩
  refine (sorter.sorted pullRequests).imp ?_
  intro a b hab
  have hlt : ¬ b.updatedAt < a.updatedAt := of_decide_eq_false hab
  exact not_lt.mp hlt

end GhDependabot
